import Mathlib

/-!
Shallow embedding of the module registry and recursive module loader of
`core/modules.rs`, together with the specifier normalization helper of
`cli/tsc/mod.rs`.

Modelling conventions (stated once here):
* Rust `HashMap<(String, AssertedModuleType), SymbolicModule>` is modelled as an
  association list; `insert` removes any previous binding of the key, so lookup
  semantics coincide with the hash map's and a map built by inserts has no
  duplicate keys.  Iteration order of the hash map is unspecified in Rust; the
  model iterates in list order.
* Rust `HashSet<ModuleRequest>` is modelled as a duplicate-free list with a
  membership-guarded insert.
* Machine integers: `usize`/`i64` casts are modelled on `Int`/`Nat` with the
  explicit wrap-arounds `toI32` (Rust `as i32`) and `i64ToUsize` (Rust
  `as usize` on an `i64`).
* The V8 engine and the user-supplied loader are external collaborators
  (spec section 6): module compilation / import extraction and JSON parsing
  are oracles bundled in `Engine`; `loader.resolve` is a function parameter;
  `loader.load` results arrive as events carrying an arbitrary `ModuleSource`.
* Rust panics (`unwrap`/`assert!` failures) are modelled as `none` / a
  dedicated `panicked` result; V8 exception handles are modelled as strings.
* The `while` loop of `register_and_recurse` is modelled with explicit fuel;
  `recurseLoopFuel_enough` proves the fuel chosen by `registerAndRecurse`
  always suffices, so no behaviour of the source loop is lost.
-/

/-- A type of module to be executed (`ModuleType` in `core/modules.rs`),
numbered 0 and 1 by `repr(u32)`. -/
inductive ModuleType
  | JavaScript
  | Json
deriving DecidableEq, Repr

/-- `AssertedModuleType` in `core/modules.rs`, numbered 0 and 1 by `repr(u32)`. -/
inductive AssertedModuleType
  | JavaScriptOrWasm
  | Json
deriving DecidableEq, Repr

/-- `impl From<ModuleType> for AssertedModuleType`. -/
def AssertedModuleType.fromModuleType : ModuleType → AssertedModuleType
  | ModuleType.JavaScript => AssertedModuleType.JavaScriptOrWasm
  | ModuleType.Json => AssertedModuleType.Json

/-- `impl Display for ModuleType`. -/
def ModuleType.display : ModuleType → String
  | ModuleType.JavaScript => "JavaScript"
  | ModuleType.Json => "JSON"

/-- `impl Display for AssertedModuleType`. -/
def AssertedModuleType.display : AssertedModuleType → String
  | AssertedModuleType.JavaScriptOrWasm => "JavaScriptOrWasm"
  | AssertedModuleType.Json => "JSON"

/-- The `repr(u32)` discriminant, used by the snapshot casts `as i32`. -/
def ModuleType.toNum : ModuleType → Int
  | ModuleType.JavaScript => 0
  | ModuleType.Json => 1

/-- The `repr(u32)` discriminant, used by the snapshot casts `as i32`. -/
def AssertedModuleType.toNum : AssertedModuleType → Int
  | AssertedModuleType.JavaScriptOrWasm => 0
  | AssertedModuleType.Json => 1

/-- `ModuleId` = `usize`. -/
abbrev ModuleId := Nat

/-- `ModuleRequest`: a request for a module as parsed from source code. -/
structure ModuleRequest where
  specifier : String
  asserted_module_type : AssertedModuleType
deriving DecidableEq, Repr

/-- `ModuleInfo`: the registry's bookkeeping record for one module. -/
structure ModuleInfo where
  id : ModuleId
  main : Bool
  name : String
  requests : List ModuleRequest
  module_type : ModuleType
deriving DecidableEq, Repr

/-- `SymbolicModule`: an alias to another name, or a binding to a V8 module id. -/
inductive SymbolicModule
  | Alias (target : String)
  | Mod (id : ModuleId)
deriving DecidableEq, Repr

/-- `ModuleSource`: bytes plus the specified and the found URL. -/
structure ModuleSource where
  code : List Nat
  module_type : ModuleType
  module_url_specified : String
  module_url_found : String
deriving DecidableEq, Repr

/-- `ModuleError`: a caught V8 exception (handle modelled as a string) or a
generic error (message). -/
inductive ModuleError
  | exception (e : String)
  | other (msg : String)
deriving DecidableEq, Repr

/-- `BOM_CHAR`. -/
def BOM_CHAR : List Nat := [0xef, 0xbb, 0xbf]

/-- `strip_bom`: strips the byte order mark from the text if present. -/
def strip_bom (source_code : List Nat) : List Nat :=
  if BOM_CHAR.isPrefixOf source_code then source_code.drop BOM_CHAR.length
  else source_code

/-- `SUPPORTED_TYPE_ASSERTIONS`. -/
def SUPPORTED_TYPE_ASSERTIONS : List String := ["json"]

/-- The `TypeError` message thrown by `validate_import_assertions`. -/
def invalidTypeMessage (value : String) : String :=
  "\"" ++ value ++ "\" is not a valid module type."

/-- `validate_import_assertions`: iterates the assertion map (modelled as the
hash map's entry sequence); on the first `type` key whose value is not in
`SUPPORTED_TYPE_ASSERTIONS` it throws a `TypeError` (modelled as `some` of the
message) and returns; otherwise it does not throw (`none`). -/
def validate_import_assertions : List (String × String) → Option String
  | [] => none
  | (key, value) :: rest =>
    if key = "type" ∧ value ∉ SUPPORTED_TYPE_ASSERTIONS then
      some (invalidTypeMessage value)
    else
      validate_import_assertions rest

/-! ## The name registry: `by_name` association map -/

/-- Key of the `by_name` map: `(String, AssertedModuleType)`. -/
abbrev BNKey := String × AssertedModuleType

/-- Hash-map lookup on the association-list model. -/
def lookupBN : List (BNKey × SymbolicModule) → BNKey → Option SymbolicModule
  | [], _ => none
  | (k, v) :: rest, key => if key = k then some v else lookupBN rest key

/-- Hash-map insert on the association-list model: the new binding replaces
any previous binding of the same key. -/
def insertBN (l : List (BNKey × SymbolicModule)) (k : BNKey) (v : SymbolicModule) :
    List (BNKey × SymbolicModule) :=
  (k, v) :: l.filter (fun e => e.1 ≠ k)

/-- Well-formedness of the association-list model of a hash map: each key at
most once. -/
def NodupKeys (l : List (BNKey × SymbolicModule)) : Prop :=
  (l.map (fun e => e.1)).Nodup

/-! ## The module map -/

/-- `ModuleMap` (the fields the verified operations touch).  `handles` is the
length of the `Vec<v8::Global<v8::Module>>` (the engine handles themselves live
in V8); new ids are allocated as `handles.len()`. -/
structure ModuleMap where
  handles : Nat
  info : List ModuleInfo
  by_name : List (BNKey × SymbolicModule)
  next_load_id : Int
deriving DecidableEq, Repr

/-- `ModuleMap::get_id`, fuelled: follows `Alias` entries; `none` means the
fuel ran out (the source loop would still be running — it diverges on an alias
cycle), `some r` is the loop's answer `r`. -/
def ModuleMap.get_id_fuel (m : ModuleMap) (amt : AssertedModuleType) :
    Nat → String → Option (Option ModuleId)
  | 0, _ => none
  | fuel + 1, name =>
    match lookupBN m.by_name (name, amt) with
    | none => some none
    | some (SymbolicModule.Alias target) => m.get_id_fuel amt fuel target
    | some (SymbolicModule.Mod mod_id) => some (some mod_id)

/-- `ModuleMap::get_id`.  Fuel `by_name.length + 1` suffices whenever the
source loop terminates (a terminating walk visits pairwise distinct alias
keys); on an alias cycle the source diverges and the model returns `none`. -/
def ModuleMap.get_id (m : ModuleMap) (name : String) (amt : AssertedModuleType) :
    Option ModuleId :=
  (m.get_id_fuel amt (m.by_name.length + 1) name).join

/-- `ModuleMap::alias`: unconditionally inserts `Alias(target)` for
`(name, asserted_module_type)`. -/
def ModuleMap.alias (m : ModuleMap) (name : String) (amt : AssertedModuleType)
    (target : String) : ModuleMap :=
  { m with by_name := insertBN m.by_name (name, amt) (SymbolicModule.Alias target) }

/-- `ModuleMap::create_module_info`: allocates `id = handles.len()`, binds
`(name, module_type.into())` to `Mod(id)`, pushes the handle and the info. -/
def ModuleMap.create_module_info (m : ModuleMap) (name : String)
    (module_type : ModuleType) (main : Bool) (requests : List ModuleRequest) :
    ModuleId × ModuleMap :=
  let id := m.handles
  (id,
   { m with
     by_name := insertBN m.by_name (name, AssertedModuleType.fromModuleType module_type)
         (SymbolicModule.Mod id)
     handles := m.handles + 1
     info := m.info ++ [{ id := id, main := main, name := name, requests := requests,
                          module_type := module_type }] })

/-- `ModuleMap::get_requested_modules`. -/
def ModuleMap.get_requested_modules (m : ModuleMap) (id : ModuleId) :
    Option (List ModuleRequest) :=
  (m.info[id]?).map (fun i => i.requests)

/-- External collaborators of the registry (spec section 6), as oracles:
`compileEs name code is_dynamic` stands for V8 compilation plus the per-import
assertion parsing/validation and loader resolution of `new_es_module`
(returning the built `ModuleRequest` list or the error); `parseJson` stands
for `v8::json::parse` (returning the caught exception on failure). -/
structure Engine where
  compileEs : String → List Nat → Bool → Except ModuleError (List ModuleRequest)
  parseJson : List Nat → Except String Unit

/-- The `Other` error of `new_es_module` when a main module already exists
(`{:?}` formats the names with quotes). -/
def dupMainMessage (name existing : String) : String :=
  "Trying to create \"main\" module (\"" ++ name ++
    "\"), when one already exists (\"" ++ existing ++ "\")"

/-- `ModuleMap::new_json_module`: parse the post-BOM bytes; on a caught
exception return it; otherwise register a synthetic module with no requests. -/
def ModuleMap.new_json_module (eng : Engine) (m : ModuleMap) (name : String)
    (source : List Nat) : Except ModuleError (ModuleId × ModuleMap) :=
  match eng.parseJson (strip_bom source) with
  | Except.error e => Except.error (ModuleError.exception e)
  | Except.ok _ =>
    Except.ok (m.create_module_info name ModuleType.Json false [])

/-- `ModuleMap::new_es_module`: compile (oracle), then — only if `main` is set
and a main module is already registered — fail with `Other`; otherwise
register. -/
def ModuleMap.new_es_module (eng : Engine) (m : ModuleMap) (main : Bool)
    (name : String) (source : List Nat) (is_dynamic_import : Bool) :
    Except ModuleError (ModuleId × ModuleMap) :=
  match eng.compileEs name source is_dynamic_import with
  | Except.error e => Except.error e
  | Except.ok requests =>
    match main, m.info.find? (fun i => i.main) with
    | true, some main_module =>
      Except.error (ModuleError.other (dupMainMessage name main_module.name))
    | _, _ => Except.ok (m.create_module_info name ModuleType.JavaScript main requests)

/-! ## Resolution: `resolve_helper` and `InternalModuleLoader::resolve` -/

/-- `ResolutionKind`. -/
inductive ResolutionKind
  | MainModule
  | Import
  | DynamicImport
deriving DecidableEq, Repr

deriving instance DecidableEq for Except

/-- A loader's `resolve` behaviour.  The result is `none` when the call
panics, otherwise the `Result<ModuleSpecifier, Error>` (errors as messages). -/
abbrev LoaderResolve := String → String → ResolutionKind → Option (Except String String)

/-- Character classes of a URL scheme (RFC 3986: `ALPHA *(ALPHA / DIGIT /
"+" / "-" / ".")`), used to model `url::Url::parse`. -/
def schemeCharOk (c : Char) : Bool :=
  c.isAlphanum || c = '+' || c = '-' || c = '.'

/-- The characters before the first `:` (`none` when there is no `:`). -/
def takeScheme : List Char → Option (List Char)
  | [] => none
  | c :: rest => if c = ':' then some [] else (takeScheme rest).map (fun cs => c :: cs)

/-- Model of the external `url::Url::parse` restricted to what
`InternalModuleLoader::resolve` inspects: the scheme.  Parsing succeeds when
the string has a valid nonempty scheme followed by `:`; the scheme is
normalized to lower case as the url crate does. -/
def urlScheme (s : String) : Option String :=
  match takeScheme s.data with
  | some (c :: cs) =>
    if c.isAlpha ∧ cs.all schemeCharOk then
      some (String.mk ((c :: cs).map Char.toLower))
    else none
  | _ => none

/-- The denial message shared by `resolve_helper` and
`InternalModuleLoader::resolve`. -/
def cannotLoadInternalMessage : String :=
  "Cannot load internal module from external code"

/-- `NoopModuleLoader::resolve`. -/
def noopResolve : LoaderResolve := fun specifier referrer _ =>
  some (Except.error
    ("Module loading is not supported; attempted to resolve: \"" ++ specifier ++
      "\" from \"" ++ referrer ++ "\""))

/-- `InternalModuleLoader::resolve`: if the specifier parses with scheme
`internal`, allow it only from referrer `"."` or a referrer whose scheme is
`internal` (the referrer parse is `unwrap`ped — `none` models that panic);
otherwise delegate to the wrapped loader. -/
def internalLoaderResolve (inner : LoaderResolve) : LoaderResolve :=
  fun specifier referrer kind =>
    match urlScheme specifier with
    | some scheme =>
      if scheme = "internal" then
        if referrer = "." then some (Except.ok specifier)
        else
          match urlScheme referrer with
          | some rscheme =>
            if rscheme = "internal" then some (Except.ok specifier)
            else some (Except.error cannotLoadInternalMessage)
          | none => none
      else inner specifier referrer kind
    | none => inner specifier referrer kind

/-- `resolve_helper`: denies resolution of the `internal:` scheme when running
with a snapshot loaded and not creating one; otherwise calls the loader.
Rust's `str::starts_with` (a byte-prefix test, which on valid UTF-8 equals a
character-prefix test) is modelled on the character lists. -/
def resolve_helper (snapshot_loaded_and_not_snapshotting : Bool)
    (loader : LoaderResolve) (specifier referrer : String)
    (kind : ResolutionKind) : Option (Except String String) :=
  if snapshot_loaded_and_not_snapshotting ∧ "internal:".data.isPrefixOf specifier.data then
    some (Except.error cannotLoadInternalMessage)
  else loader specifier referrer kind

/-! ## `normalize_specifier` (`cli/tsc/mod.rs`) -/

/-- Model of Rust `str::replace`: scans left to right; at each position, if
the pattern matches it emits the replacement and skips past the match
(non-overlapping), otherwise it keeps the character.  The fuel is structural
bookkeeping; `s.length` is always enough (each step consumes at least one
character of `s`; the patterns used here are nonempty). -/
def replaceChars (pat rep : List Char) : Nat → List Char → List Char
  | 0, s => s
  | fuel + 1, s =>
    match s with
    | [] => []
    | c :: rest =>
      if pat.isPrefixOf s then rep ++ replaceChars pat rep fuel (s.drop pat.length)
      else c :: replaceChars pat rep fuel rest

/-- Rust `str::replace` on strings. -/
def strReplace (s pat rep : String) : String :=
  { data := replaceChars pat.data rep.data s.data.length s.data }

/-- The string rewrite performed by `normalize_specifier` before
`resolve_url_or_path`: `specifier.replace(".d.ts.d.ts", ".d.ts")`. -/
def normalizeSpecifierStr (specifier : String) : String :=
  strReplace specifier ".d.ts.d.ts" ".d.ts"

/-! ## Snapshot serialization (`serialize_for_snapshotting` /
`update_with_snapshot_data`) -/

/-- The V8 values the snapshot data is built from.  `int` is a value created
by `v8::Integer::new` (an i32). -/
inductive V8Value
  | int (n : Int)
  | str (s : String)
  | boolean (b : Bool)
  | arr (elems : List V8Value)

/-- Rust `as i32` on a nonnegative integer (two's-complement wrap). -/
def toI32 (n : Int) : Int :=
  (n + 2147483648) % 4294967296 - 2147483648

/-- Rust `as usize` on an `i64` (two's-complement wrap into 64 bits). -/
def i64ToUsize (n : Int) : Nat :=
  (n % 18446744073709551616).toNat

/-- `usize::try_from` on an `i64`: fails (and the caller's `unwrap` panics)
on negative values. -/
def i64TryIntoUsize (n : Int) : Option Nat :=
  if n < 0 then none else some n.toNat

/-- `v8::Value::is_int32`. -/
def v8IsInt32 : V8Value → Bool
  | V8Value.int n => decide (-2147483648 ≤ n ∧ n < 2147483648)
  | _ => false

/-- `v8::Value::is_number`. -/
def v8IsNumber : V8Value → Bool
  | V8Value.int _ => true
  | _ => false

/-- `v8::Value::to_integer(...).value()` (then `int32_value` where used).  The
snapshot reader only ever applies it to integers; the JS numeric coercion of
other values is left unmodelled (`none`, which the surrounding `unwrap` turns
into a failure). -/
def v8ToInteger : V8Value → Option Int
  | V8Value.int n => some n
  | _ => none

/-- `v8::Value::to_boolean(...).is_true()`: JS truthiness. -/
def v8ToBoolean : V8Value → Bool
  | V8Value.boolean b => b
  | V8Value.int n => decide (n ≠ 0)
  | V8Value.str s => decide (s ≠ "")
  | V8Value.arr _ => true

/-- `v8::Value::to_rust_string_lossy`.  The snapshot reader only applies it to
strings (and, for debug-formatting fidelity, integers/booleans); arrays are
left unmodelled. -/
def v8ToStringLossy : V8Value → String
  | V8Value.str s => s
  | V8Value.int n => toString n
  | V8Value.boolean b => if b then "true" else "false"
  | V8Value.arr _ => ""

/-- `v8::Array::get_index` (`some` only for in-range indices of an array; the
reader `unwrap`s the result). -/
def v8GetIndex : V8Value → Nat → Option V8Value
  | V8Value.arr elems, i => elems[i]?
  | _, _ => none

/-- `Local<Array>::try_from(...)` followed by reading out the elements. -/
def v8AsArray : V8Value → Option (List V8Value)
  | V8Value.arr elems => some elems
  | _ => none

/-- The flat `requests` array: `[spec0, amt0, spec1, amt1, ...]` with the
asserted module type cast `as i32`. -/
def serializeRequestsFlat (requests : List ModuleRequest) : List V8Value :=
  requests.foldr
    (fun r acc => V8Value.str r.specifier :: V8Value.int r.asserted_module_type.toNum :: acc)
    []

/-- One `info` record: `[id as i32, main, name, requests_flat, module_type as i32]`. -/
def serializeInfoEntry (i : ModuleInfo) : V8Value :=
  V8Value.arr [V8Value.int (toI32 i.id), V8Value.boolean i.main, V8Value.str i.name,
    V8Value.arr (serializeRequestsFlat i.requests), V8Value.int i.module_type.toNum]

/-- One `by_name` record: `[specifier, amt as i32, alias-string | id as i32]`. -/
def serializeByNameEntry (e : BNKey × SymbolicModule) : V8Value :=
  V8Value.arr [V8Value.str e.1.1, V8Value.int e.1.2.toNum,
    match e.2 with
    | SymbolicModule.Alias target => V8Value.str target
    | SymbolicModule.Mod id => V8Value.int (toI32 id)]

/-- `ModuleMap::serialize_for_snapshotting`: the three-element array
`[next_load_id, info_array, by_name_array]` (the handles are returned
separately and reattached positionally; the model carries their count). -/
def ModuleMap.serialize_for_snapshotting (m : ModuleMap) : V8Value :=
  V8Value.arr [V8Value.int m.next_load_id,
    V8Value.arr (m.info.map serializeInfoEntry),
    V8Value.arr (m.by_name.map serializeByNameEntry)]

/-- Decoding `0 ↦ JavaScriptOrWasm, 1 ↦ Json`; anything else is
`unreachable!` (a panic, modelled as `none`). -/
def parseAssertedModuleTypeNum (n : Int) : Option AssertedModuleType :=
  if n = 0 then some AssertedModuleType.JavaScriptOrWasm
  else if n = 1 then some AssertedModuleType.Json
  else none

/-- Decoding `0 ↦ JavaScript, 1 ↦ Json`; anything else is `unreachable!`. -/
def parseModuleTypeNum (n : Int) : Option ModuleType :=
  if n = 0 then some ModuleType.JavaScript
  else if n = 1 then some ModuleType.Json
  else none

/-- The request-decoding loop: `len = arr.length / 2` pairs are read (an odd
trailing element is ignored, as the integer division does in the source). -/
def decodeRequestPairs : List V8Value → Option (List ModuleRequest)
  | [] => some []
  | [_] => some []
  | sv :: av :: rest => do
    let amtNo ← v8ToInteger av
    let amt ← parseAssertedModuleTypeNum amtNo
    let tail ← decodeRequestPairs rest
    some ({ specifier := v8ToStringLossy sv, asserted_module_type := amt } :: tail)

/-- Decoding one `info` record (`id` read back via `value() as ModuleId`). -/
def decodeInfoEntry (v : V8Value) : Option ModuleInfo := do
  let fields ← v8AsArray v
  let idv ← fields[0]?
  let idn ← v8ToInteger idv
  let mainv ← fields[1]?
  let namev ← fields[2]?
  let reqv ← fields[3]?
  let reqFields ← v8AsArray reqv
  let requests ← decodeRequestPairs reqFields
  let mtv ← fields[4]?
  let mtn ← v8ToInteger mtv
  let mt ← parseModuleTypeNum mtn
  some { id := i64ToUsize idn, main := v8ToBoolean mainv, name := v8ToStringLossy namev,
         requests := requests, module_type := mt }

/-- Decoding one `by_name` record: a number is a `Mod` binding (via
`usize::try_from(...).unwrap()`), anything else an `Alias`. -/
def decodeByNameEntry (v : V8Value) : Option (BNKey × SymbolicModule) := do
  let fields ← v8AsArray v
  let sv ← fields[0]?
  let av ← fields[1]?
  let amtNo ← v8ToInteger av
  let amt ← parseAssertedModuleTypeNum amtNo
  let symv ← fields[2]?
  let sym ←
    if v8IsNumber symv then do
      let n ← v8ToInteger symv
      let id ← i64TryIntoUsize n
      some (SymbolicModule.Mod id)
    else
      some (SymbolicModule.Alias (v8ToStringLossy symv))
  some ((v8ToStringLossy sv, amt), sym)

/-- `ModuleMap::update_with_snapshot_data`: asserts `next_load_id` is an i32,
rebuilds `info` in order, rebuilds `by_name` by hash-map inserts, and attaches
the (positionally restored) handles.  `none` models a panic on malformed
data. -/
def ModuleMap.update_with_snapshot_data (m : ModuleMap) (data : V8Value)
    (module_handles : Nat) : Option ModuleMap := do
  let nlv ← v8GetIndex data 0
  if v8IsInt32 nlv then
    let nl ← v8ToInteger nlv
    let infov ← v8GetIndex data 1
    let infoArr ← v8AsArray infov
    let info ← infoArr.mapM decodeInfoEntry
    let bnv ← v8GetIndex data 2
    let bnArr ← v8AsArray bnv
    let entries ← bnArr.mapM decodeByNameEntry
    let by_name := entries.foldl (fun acc e => insertBN acc e.1 e.2) []
    some { m with next_load_id := nl, info := info, by_name := by_name,
                  handles := module_handles }
  else none

/-! ## `RecursiveModuleLoad` -/

/-- `LoadState`. -/
inductive LoadState
  | Init
  | LoadingRoot
  | LoadingImports
  | Done
deriving DecidableEq, Repr

/-- The per-load record of `RecursiveModuleLoad` (the fields the verified
properties touch).  `pending` holds the requests of the in-flight load
futures; `loadLog` is ghost instrumentation recording, in order, every
request for which a future invoking `loader.load` was pushed.  `isMainInit`
models `matches!(init, LoadInit::Main(..))` and `isDynamicImport` models
`matches!(init, LoadInit::DynamicImport(..))`. -/
structure LoadRec where
  state : LoadState
  root_module_id : Option ModuleId
  root_asserted_module_type : Option AssertedModuleType
  visited : List ModuleRequest
  pending : List ModuleRequest
  loadLog : List ModuleRequest
  isMainInit : Bool
  isDynamicImport : Bool
deriving DecidableEq, Repr

/-- `RecursiveModuleLoad::is_currently_loading_main_module`. -/
def LoadRec.is_currently_loading_main_module (l : LoadRec) : Bool :=
  !l.isDynamicImport && l.isMainInit && (l.state == LoadState.LoadingRoot)

/-- `HashSet::insert` on the list model of `visited`. -/
def insertVis (r : ModuleRequest) (v : List ModuleRequest) : List ModuleRequest :=
  if r ∈ v then v else r :: v

/-- All module requests recorded anywhere in the registry's `info` table (the
finite universe the recursion loop walks). -/
def universeReqs (m : ModuleMap) : List ModuleRequest :=
  m.info.foldr (fun i acc => i.requests ++ acc) []

/-- The number of universe requests not yet visited: the termination measure
of the `register_and_recurse` loop. -/
def countUnvisited (m : ModuleMap) (v : List ModuleRequest) : Nat :=
  ((universeReqs m).filter (fun r => decide (r ∉ v))).length

/-- The inner `for` loop of `register_and_recurse`: walk one module's
`imports`; a request not yet visited is either queued for synchronous
recursion (when `get_id` finds it) or enqueued as a fetch future, and is
marked visited in the same iteration. -/
def processImports (m : ModuleMap) :
    List ModuleRequest → List ModuleRequest → List (ModuleId × ModuleRequest) →
    List ModuleRequest →
    List ModuleRequest × List (ModuleId × ModuleRequest) × List ModuleRequest
  | [], visited, queue, enq => (visited, queue, enq)
  | req :: rest, visited, queue, enq =>
    if req ∈ visited then processImports m rest visited queue enq
    else
      match m.get_id req.specifier req.asserted_module_type with
      | some id => processImports m rest (insertVis req visited) (queue ++ [(id, req)]) enq
      | none => processImports m rest (insertVis req visited) queue (enq ++ [req])

/-- Result of the `while let Some(..) = already_registered.pop_front()` loop:
either a panic (`get_requested_modules(..).unwrap()` on a dangling id) or the
final `visited` set together with the list of requests enqueued as fetch
futures. -/
inductive LoopResult
  | panicked
  | finished (visited : List ModuleRequest) (enq : List ModuleRequest)
deriving DecidableEq, Repr

/-- The `while` loop of `register_and_recurse`, fuelled (`none` = fuel ran
out; `recurseLoopFuel_enough` shows the fuel used by `registerAndRecurse`
always suffices). -/
def recurseLoopFuel (m : ModuleMap) :
    Nat → List (ModuleId × ModuleRequest) → List ModuleRequest → List ModuleRequest →
    Option LoopResult
  | 0, _, _, _ => none
  | _ + 1, [], visited, enq => some (LoopResult.finished visited enq)
  | fuel + 1, (id, _) :: qrest, visited, enq =>
    match m.info[id]? with
    | none => some LoopResult.panicked
    | some inf =>
      match processImports m inf.requests visited qrest enq with
      | (v2, q2, e2) => recurseLoopFuel m fuel q2 v2 e2

/-- The `Other` error of the module-type check at the top of
`register_and_recurse`. -/
def mismatchMessage (request : ModuleRequest) (source : ModuleSource) : String :=
  "Expected a \"" ++ request.asserted_module_type.display ++
    "\" module but loaded a \"" ++ source.module_type.display ++ "\" module."

/-- Outcome of `register_and_recurse`: an error return, a panic inside the
loop, or the updated module map and load record together with the list of
requests newly enqueued as fetch futures. -/
inductive RegResult
  | err (e : ModuleError)
  | panicked
  | ok (m : ModuleMap) (l : LoadRec) (newlyEnqueued : List ModuleRequest)
deriving DecidableEq, Repr

/-- `RecursiveModuleLoad::register_and_recurse`:
1. fail unless the derived asserted module type matches the request's;
2. install an alias when the specified and found URLs differ;
3. reuse a bound id, else register a new JS/JSON module under the found URL;
4. walk the imports (loop above), seeding the queue with the request and
   marking it visited;
5. update `state` / `root_module_id`, append the new fetches to `pending`. -/
def registerAndRecurse (eng : Engine) (m : ModuleMap) (l : LoadRec)
    (module_request : ModuleRequest) (module_source : ModuleSource) : RegResult :=
  let expected := AssertedModuleType.fromModuleType module_source.module_type
  if module_request.asserted_module_type ≠ expected then
    RegResult.err (ModuleError.other (mismatchMessage module_request module_source))
  else
    let m1 :=
      if module_source.module_url_specified ≠ module_source.module_url_found then
        m.alias module_source.module_url_specified expected
          module_source.module_url_found
      else m
    let registered : Except ModuleError (ModuleId × ModuleMap) :=
      match m1.get_id module_source.module_url_found expected with
      | some id => Except.ok (id, m1)
      | none =>
        match module_source.module_type with
        | ModuleType.JavaScript =>
          ModuleMap.new_es_module eng m1 l.is_currently_loading_main_module
            module_source.module_url_found module_source.code l.isDynamicImport
        | ModuleType.Json =>
          ModuleMap.new_json_module eng m1 module_source.module_url_found
            module_source.code
    match registered with
    | Except.error e => RegResult.err e
    | Except.ok (module_id, m2) =>
      let visited1 := insertVis module_request l.visited
      match recurseLoopFuel m2 (countUnvisited m2 visited1 + 2)
          [(module_id, module_request)] visited1 [] with
      | none => RegResult.panicked
      | some LoopResult.panicked => RegResult.panicked
      | some (LoopResult.finished v2 enq) =>
        let pending2 := l.pending ++ enq
        let st1 := if l.state = LoadState.LoadingRoot then LoadState.LoadingImports
                   else l.state
        let rmid := if l.state = LoadState.LoadingRoot then some module_id
                    else l.root_module_id
        let ramt := if l.state = LoadState.LoadingRoot then
                      some (AssertedModuleType.fromModuleType module_source.module_type)
                    else l.root_asserted_module_type
        RegResult.ok m2
          { l with
            state := if pending2 = [] then LoadState.Done else st1
            root_module_id := rmid
            root_asserted_module_type := ramt
            visited := v2
            pending := pending2
            loadLog := l.loadLog ++ enq }
          enq

/-- One graph load: the shared registry plus the load record. -/
structure LoadGraphState where
  map : ModuleMap
  load : LoadRec
deriving DecidableEq, Repr

/-- The events driving a load: the first poll in `Init` state (which pushes
the root fetch — or the fake ready future when the root is already
registered), and the completion of one pending fetch future, delivering the
loader's (arbitrary) `ModuleSource`. -/
inductive LoadEvent
  | pollInit
  | complete (request : ModuleRequest) (source : ModuleSource)

/-- `RecursiveModuleLoad::new`: allocates nothing here that the claims need
beyond the eager root lookup — `root_module_id` (and the matching asserted
type) are set when the already-resolved root request is registered. -/
def initLoad (m : ModuleMap) (rootReq : ModuleRequest) (isMainInit isDyn : Bool) :
    LoadRec :=
  let pre := m.get_id rootReq.specifier rootReq.asserted_module_type
  { state := LoadState.Init
    root_module_id := pre
    root_asserted_module_type :=
      if pre.isSome then some rootReq.asserted_module_type else none
    visited := []
    pending := []
    loadLog := []
    isMainInit := isMainInit
    isDynamicImport := isDyn }

/-- One step of `Stream::poll_next` composed with the embedder's
`register_and_recurse` call.  `rootReq` is the already-resolved root request
(a resolution failure ends the load before any push).  In `Init` the root
future is pushed into `pending`; it invokes `loader.load` (and is logged)
exactly when the root was not pre-registered — for a pre-registered root the
source pushes a ready fake-source future instead.  A `complete` event picks
one pending request (delivering an arbitrary loader-chosen source) and runs
`register_and_recurse`; an error or panic ends the load (no successor
state). -/
def stepLoad (eng : Engine) (rootReq : ModuleRequest) (s : LoadGraphState) :
    LoadEvent → Option LoadGraphState
  | LoadEvent.pollInit =>
    match s.load.state with
    | LoadState.Init =>
      some { s with load :=
        { s.load with
          state := LoadState.LoadingRoot
          pending := s.load.pending ++ [rootReq]
          loadLog := s.load.loadLog ++
            (if s.load.root_module_id.isSome then [] else [rootReq]) } }
    | _ => none
  | LoadEvent.complete req src =>
    match s.load.state with
    | LoadState.LoadingRoot | LoadState.LoadingImports =>
      if req ∈ s.load.pending then
        let l1 := { s.load with pending := s.load.pending.erase req }
        match registerAndRecurse eng s.map l1 req src with
        | RegResult.ok m2 l2 _ => some { map := m2, load := l2 }
        | _ => none
      else none
    | _ => none

/-- Driving a load through a sequence of events. -/
def runLoad (eng : Engine) (rootReq : ModuleRequest) :
    LoadGraphState → List LoadEvent → Option LoadGraphState
  | s, [] => some s
  | s, e :: rest =>
    match stepLoad eng rootReq s e with
    | none => none
    | some s2 => runLoad eng rootReq s2 rest

/-! ## Alias walks (for the termination analysis of `get_id`) -/

/-- One step of the `get_id` loop: the alias target of `name`, when the entry
is an `Alias`. -/
def aliasStep (m : ModuleMap) (amt : AssertedModuleType) (name : String) :
    Option String :=
  match lookupBN m.by_name (name, amt) with
  | some (SymbolicModule.Alias target) => some target
  | _ => none

/-- `k`-fold iteration of `aliasStep` (`none` once the walk leaves the alias
entries). -/
def iterAlias (m : ModuleMap) (amt : AssertedModuleType) : Nat → String → Option String
  | 0, name => some name
  | k + 1, name => (aliasStep m amt name).bind (iterAlias m amt k)

/-- `by_name` contains no cycle of `Alias` entries for the fixed asserted
module type: no name reaches itself in one or more alias steps. -/
def NoAliasCycle (m : ModuleMap) (amt : AssertedModuleType) : Prop :=
  ∀ name k, 0 < k → iterAlias m amt k name ≠ some name

/-- The list of names an alias walk visits (cut off at `fuel` names or at the
first non-`Alias` entry). -/
def aliasChain (m : ModuleMap) (amt : AssertedModuleType) : Nat → String → List String
  | 0, _ => []
  | k + 1, name =>
    match aliasStep m amt name with
    | some target => name :: aliasChain m amt k target
    | none => []

/-! ## Registry invariants and derived predicates -/

/-- At most one entry of the `info` table is marked `main`. -/
def AtMostOneMain (m : ModuleMap) : Prop :=
  (m.info.filter (fun i => i.main)).length ≤ 1

/-- Whether `(name, amt)` is directly bound to a `Mod` entry (not an alias,
not absent). -/
def ModuleMap.bindsMod (m : ModuleMap) (k : BNKey) : Bool :=
  match lookupBN m.by_name k with
  | some (SymbolicModule.Mod _) => true
  | _ => false

/-- Rebuilding a `by_name` table by hash-map inserts, as the snapshot
restore loop does. -/
def rebuildBN (l : List (BNKey × SymbolicModule)) : List (BNKey × SymbolicModule) :=
  l.foldl (fun acc e => insertBN acc e.1 e.2) []

/-- A `Mod` binding's id fits in an i32 (`Alias` entries trivially do): the
well-formedness under which the snapshot casts `as i32` are lossless. -/
def symIdBelow (s : SymbolicModule) : Bool :=
  match s with
  | SymbolicModule.Mod id => decide (id < 2147483648)
  | _ => true

/-- Invariant of one running load, relative to the resolved root request:
the load log never repeats a request, and
* in `Init`: nothing pushed, nothing visited;
* in `LoadingRoot`: exactly the root fetch is pending, it is the only
  possible log entry, and nothing is visited yet;
* in `LoadingImports`/`Done`: every pending and every logged request has been
  marked visited. -/
def LoadInv (rootReq : ModuleRequest) (s : LoadGraphState) : Prop :=
  s.load.loadLog.Nodup ∧
  ((s.load.state = LoadState.Init ∧ s.load.pending = [] ∧ s.load.loadLog = [] ∧
      s.load.visited = []) ∨
   (s.load.state = LoadState.LoadingRoot ∧ s.load.pending = [rootReq] ∧
      (s.load.loadLog = [] ∨ s.load.loadLog = [rootReq]) ∧ s.load.visited = []) ∨
   ((s.load.state = LoadState.LoadingImports ∨ s.load.state = LoadState.Done) ∧
      (∀ r ∈ s.load.pending, r ∈ s.load.visited) ∧
      (∀ r ∈ s.load.loadLog, r ∈ s.load.visited)))

/-! ## Concrete sample data (used by witnesses and counterexamples) -/

/-- `ModuleMap::new` (an empty registry; `next_load_id` starts at 1). -/
def ModuleMap.new : ModuleMap :=
  { handles := 0, info := [], by_name := [], next_load_id := 1 }

/-- An engine whose compile oracle reports no imports and whose JSON parser
accepts everything. -/
def trivialEngine : Engine :=
  { compileEs := fun _ _ _ => Except.ok [], parseJson := fun _ => Except.ok () }

/-- A JavaScript-or-wasm request for a specifier. -/
def reqJs (s : String) : ModuleRequest :=
  { specifier := s, asserted_module_type := AssertedModuleType.JavaScriptOrWasm }

/-- Registry in which `file:///y.js` is an alias (left over from an earlier
redirected load) whose chain ends at the bound module `file:///z.js`. -/
def mapChainC3 : ModuleMap :=
  { handles := 1
    info := [{ id := 0, main := false, name := "file:///z.js", requests := [],
               module_type := ModuleType.JavaScript }]
    by_name := [(("file:///y.js", AssertedModuleType.JavaScriptOrWasm),
                   SymbolicModule.Alias "file:///z.js"),
                (("file:///z.js", AssertedModuleType.JavaScriptOrWasm),
                   SymbolicModule.Mod 0)]
    next_load_id := 1 }

/-- A load already past its root. -/
def loadImportsC3 : LoadRec :=
  { state := LoadState.LoadingImports, root_module_id := some 0
    root_asserted_module_type := some AssertedModuleType.JavaScriptOrWasm
    visited := [], pending := [], loadLog := []
    isMainInit := false, isDynamicImport := false }

/-- A fetch of `file:///x.js` that the loader redirected to `file:///y.js`. -/
def srcC3 : ModuleSource :=
  { code := [], module_type := ModuleType.JavaScript
    module_url_specified := "file:///x.js", module_url_found := "file:///y.js" }

/-- Registry with one registered module named `file:///n.js`. -/
def mapOneC10 : ModuleMap :=
  { handles := 1
    info := [{ id := 0, main := false, name := "file:///n.js", requests := [],
               module_type := ModuleType.JavaScript }]
    by_name := [(("file:///n.js", AssertedModuleType.JavaScriptOrWasm),
                  SymbolicModule.Mod 0)]
    next_load_id := 1 }

/-- Registry with one registered main module. -/
def mapMainC6 : ModuleMap :=
  { handles := 1
    info := [{ id := 0, main := true, name := "file:///main.js", requests := [],
               module_type := ModuleType.JavaScript }]
    by_name := [(("file:///main.js", AssertedModuleType.JavaScriptOrWasm),
                  SymbolicModule.Mod 0)]
    next_load_id := 1 }

/-- Registry exercising every snapshot shape: a main module with a JSON
request, a bound name and an alias. -/
def mapSnapC2 : ModuleMap :=
  { handles := 1
    info := [{ id := 0, main := true, name := "file:///m.js"
               requests := [{ specifier := "file:///d.json"
                              asserted_module_type := AssertedModuleType.Json }]
               module_type := ModuleType.JavaScript }]
    by_name := [(("file:///m.js", AssertedModuleType.JavaScriptOrWasm),
                  SymbolicModule.Mod 0),
                (("file:///other.js", AssertedModuleType.JavaScriptOrWasm),
                  SymbolicModule.Alias "file:///m.js")]
    next_load_id := 3 }

/-- A mismatching request/source pair: JSON source, no json assertion. -/
def srcJsonC5 : ModuleSource :=
  { code := [], module_type := ModuleType.Json
    module_url_specified := "file:///d.json", module_url_found := "file:///d.json" }

/-- The root request driving the sample load of the at-most-once claim. -/
def rootReqC1 : ModuleRequest := reqJs "file:///a.js"

/-- The loader's answer for the sample root fetch. -/
def srcRootC1 : ModuleSource :=
  { code := [], module_type := ModuleType.JavaScript
    module_url_specified := "file:///a.js", module_url_found := "file:///a.js" }

/-- The final state of the sample load (root fetched, no imports). -/
def finalC1 : LoadGraphState :=
  { map := { handles := 1
             info := [{ id := 0, main := true, name := "file:///a.js", requests := [],
                        module_type := ModuleType.JavaScript }]
             by_name := [(("file:///a.js", AssertedModuleType.JavaScriptOrWasm),
                           SymbolicModule.Mod 0)]
             next_load_id := 1 }
    load := { state := LoadState.Done, root_module_id := some 0
              root_asserted_module_type := some AssertedModuleType.JavaScriptOrWasm
              visited := [rootReqC1], pending := [], loadLog := [rootReqC1]
              isMainInit := true, isDynamicImport := false } }

/-- The state of the sample load right after the initial poll: the root request
has been pushed into `pending` (and handed to the loader), but `visited` is
still empty. -/
def afterInitC1 : LoadGraphState :=
  { map := ModuleMap.new
    load := { state := LoadState.LoadingRoot, root_module_id := none
              root_asserted_module_type := none
              visited := [], pending := [rootReqC1], loadLog := [rootReqC1]
              isMainInit := true, isDynamicImport := false } }

/-! # Lemmas about the `by_name` association map -/

theorem lookupBN_insert_self (l : List (BNKey × SymbolicModule)) (k : BNKey)
    (v : SymbolicModule) : lookupBN (insertBN l k v) k = some v := by
  simp [insertBN, lookupBN]

theorem lookupBN_filter_ne (l : List (BNKey × SymbolicModule)) (k k' : BNKey)
    (h : k' ≠ k) : lookupBN (l.filter (fun e => e.1 ≠ k)) k' = lookupBN l k' := by
  induction l with
  | nil => rfl
  | cons e rest ih =>
    obtain ⟨k1, v1⟩ := e
    simp only [List.filter_cons]
    by_cases he : k1 = k
    · subst he
      rw [if_neg (by simp)]
      rw [ih]
      simp [lookupBN, h]
    · rw [if_pos (by simp [he])]
      simp only [lookupBN]
      by_cases hk : k' = k1
      · simp [hk]
      · rw [if_neg hk, if_neg hk]
        exact ih

theorem lookupBN_insert_ne (l : List (BNKey × SymbolicModule)) (k k' : BNKey)
    (v : SymbolicModule) (h : k' ≠ k) :
    lookupBN (insertBN l k v) k' = lookupBN l k' := by
  simp only [insertBN, lookupBN]
  rw [if_neg h]
  exact lookupBN_filter_ne l k k' h

theorem lookupBN_eq_none (l : List (BNKey × SymbolicModule)) (k : BNKey)
    (h : k ∉ l.map (fun e => e.1)) : lookupBN l k = none := by
  induction l with
  | nil => rfl
  | cons e rest ih =>
    simp only [List.map_cons, List.mem_cons] at h
    push_neg at h
    obtain ⟨k1, v1⟩ := e
    simp only [lookupBN]
    rw [if_neg h.1]
    exact ih h.2

theorem mem_keys_of_lookupBN (l : List (BNKey × SymbolicModule)) (k : BNKey)
    (v : SymbolicModule) (h : lookupBN l k = some v) : k ∈ l.map (fun e => e.1) := by
  induction l with
  | nil => simp [lookupBN] at h
  | cons e rest ih =>
    obtain ⟨k1, v1⟩ := e
    simp only [lookupBN] at h
    by_cases hk : k = k1
    · simp [hk]
    · rw [if_neg hk] at h
      simp [ih h]

/-! # C8: import-assertion validation -/

/-- Claim C8: `validate_import_assertions` throws a `TypeError` if and only if
the assertion map contains the key `type` with a value outside the recognized
set `{"json"}` (`SUPPORTED_TYPE_ASSERTIONS`); entries with other keys never
cause an error, and a map without a `type` key, or with `type ↦ json`, passes
without throwing. -/
theorem validate_import_assertions_spec (assertions : List (String × String)) :
    (validate_import_assertions assertions).isSome ↔
      ∃ kv ∈ assertions, kv.1 = "type" ∧ kv.2 ∉ SUPPORTED_TYPE_ASSERTIONS := by
  induction assertions with
  | nil => simp [validate_import_assertions]
  | cons kv rest ih =>
    obtain ⟨key, value⟩ := kv
    by_cases h : key = "type" ∧ value ∉ SUPPORTED_TYPE_ASSERTIONS
    · simp only [validate_import_assertions, if_pos h]
      simp only [Option.isSome_some, true_iff]
      exact ⟨(key, value), List.mem_cons_self _ _, h⟩
    · simp only [validate_import_assertions, if_neg h]
      rw [ih]
      constructor
      · rintro ⟨kv', hmem, hp⟩
        exact ⟨kv', List.mem_cons_of_mem _ hmem, hp⟩
      · rintro ⟨kv', hmem, hp⟩
        rcases List.mem_cons.mp hmem with heq | hmem'
        · subst heq
          exact absurd hp h
        · exact ⟨kv', hmem', hp⟩

/-! # C10: `alias` overwrites unconditionally -/

/-- Claim C10: `ModuleMap::alias` unconditionally binds `(name, amt)` to
`Alias(target)`, whatever entry (including a `Mod` binding) was there before,
while `info` and the handle table are untouched; when the target has no entry
(and differs from the name), the name no longer resolves via `get_id` even
though its info entry and handle remain. -/
theorem alias_overwrites (m : ModuleMap) (name : String) (amt : AssertedModuleType)
    (target : String) :
    lookupBN (m.alias name amt target).by_name (name, amt) =
      some (SymbolicModule.Alias target) ∧
    (m.alias name amt target).info = m.info ∧
    (m.alias name amt target).handles = m.handles ∧
    (target ≠ name → lookupBN m.by_name (target, amt) = none →
      (m.alias name amt target).get_id name amt = none) := by
  refine ⟨lookupBN_insert_self _ _ _, rfl, rfl, fun hne hnone => ?_⟩
  have hlen : (m.alias name amt target).by_name.length =
      (m.by_name.filter (fun e => e.1 ≠ (name, amt))).length + 1 := by
    simp [ModuleMap.alias, insertBN]
  have hself : lookupBN (m.alias name amt target).by_name (name, amt) =
      some (SymbolicModule.Alias target) := lookupBN_insert_self _ _ _
  have htgt : lookupBN (m.alias name amt target).by_name (target, amt) = none := by
    rw [show (m.alias name amt target).by_name =
        insertBN m.by_name (name, amt) (SymbolicModule.Alias target) from rfl]
    rw [lookupBN_insert_ne _ _ _ _ (by simp [hne])]
    exact hnone
  rw [ModuleMap.get_id, hlen]
  simp only [ModuleMap.get_id_fuel, hself, htgt, Option.join]
  rfl

/-- Witness for C10 at a concrete registry: the registered module
`file:///n.js` is overwritten by an alias to the absent `file:///t.js` and no
longer resolves, with `info` and `handles` intact. -/
theorem alias_overwrites_witness :
    lookupBN (mapOneC10.alias "file:///n.js" AssertedModuleType.JavaScriptOrWasm
        "file:///t.js").by_name ("file:///n.js", AssertedModuleType.JavaScriptOrWasm) =
      some (SymbolicModule.Alias "file:///t.js") ∧
    (mapOneC10.alias "file:///n.js" AssertedModuleType.JavaScriptOrWasm
        "file:///t.js").get_id "file:///n.js" AssertedModuleType.JavaScriptOrWasm = none :=
  ⟨(alias_overwrites mapOneC10 "file:///n.js" AssertedModuleType.JavaScriptOrWasm
      "file:///t.js").1,
   (alias_overwrites mapOneC10 "file:///n.js" AssertedModuleType.JavaScriptOrWasm
      "file:///t.js").2.2.2 (by decide) (by decide)⟩

/-! # Lemmas about `replaceChars` (Rust `str::replace`) -/

theorem replaceChars_nil (pat rep : List Char) (fuel : Nat) :
    replaceChars pat rep fuel [] = [] := by
  cases fuel <;> rfl

theorem replaceChars_fuel (pat rep : List Char) (hpat : pat ≠ []) :
    ∀ f1 f2 s, s.length ≤ f1 → s.length ≤ f2 →
      replaceChars pat rep f1 s = replaceChars pat rep f2 s := by
  intro f1
  induction f1 with
  | zero =>
    intro f2 s h1 _
    have hs : s = [] := List.eq_nil_of_length_eq_zero (Nat.le_zero.mp h1)
    subst hs
    rw [replaceChars_nil, replaceChars_nil]
  | succ n ih =>
    intro f2 s h1 h2
    cases s with
    | nil => rw [replaceChars_nil, replaceChars_nil]
    | cons c rest =>
      cases f2 with
      | zero => simp at h2
      | succ f =>
        have hplen : 1 ≤ pat.length := by
          cases pat
          · exact absurd rfl hpat
          · simp
        simp only [replaceChars]
        by_cases hp : pat.isPrefixOf (c :: rest)
        · rw [if_pos hp, if_pos hp]
          congr 1
          apply ih
          · rw [List.length_drop]
            simp only [List.length_cons] at h1 ⊢
            omega
          · rw [List.length_drop]
            simp only [List.length_cons] at h2 ⊢
            omega
        · rw [if_neg hp, if_neg hp]
          congr 1
          apply ih
          · simp only [List.length_cons] at h1
            omega
          · simp only [List.length_cons] at h2
            omega

theorem replaceChars_append (pat rep : List Char) (hpat : pat ≠ []) :
    ∀ a b, (∀ i, i < a.length → ¬ pat.isPrefixOf ((a ++ pat ++ b).drop i)) →
      replaceChars pat rep (a ++ pat ++ b).length (a ++ pat ++ b) =
        a ++ rep ++ replaceChars pat rep b.length b := by
  intro a
  induction a with
  | nil =>
    intro b _
    cases hp : pat with
    | nil => exact absurd hp hpat
    | cons p0 ptail =>
      subst hp
      simp only [List.nil_append]
      rw [show ((p0 :: ptail) ++ b).length = (ptail.length + b.length) + 1 by
        simp [Nat.add_comm]]
      rw [show (p0 :: ptail) ++ b = p0 :: (ptail ++ b) from rfl]
      simp only [replaceChars]
      rw [if_pos (by
        rw [show p0 :: (ptail ++ b) = (p0 :: ptail) ++ b from rfl]
        exact List.isPrefixOf_iff_prefix.mpr (List.prefix_append _ _))]
      rw [show (p0 :: (ptail ++ b)).drop (p0 :: ptail).length = b from
        List.drop_left (p0 :: ptail) b]
      rw [replaceChars_fuel (p0 :: ptail) rep hpat (ptail.length + b.length) b.length b
        (by omega) (Nat.le_refl _)]
  | cons c a' ih =>
    intro b h
    have h0 : ¬ pat.isPrefixOf (c :: (a' ++ pat ++ b)) := by
      have := h 0 (by simp)
      simpa using this
    rw [show ((c :: a') ++ pat ++ b).length = (a' ++ pat ++ b).length + 1 by simp]
    rw [show (c :: a') ++ pat ++ b = c :: (a' ++ pat ++ b) from rfl]
    simp only [replaceChars]
    rw [if_neg h0]
    rw [ih b (fun i hi => by
      have := h (i + 1) (by simp only [List.length_cons]; omega)
      simpa [List.drop_succ_cons] using this)]
    rfl

/-! # C9: `normalize_specifier` -/

/-- Claim C9 (amended): the rewrite `specifier.replace(".d.ts.d.ts", ".d.ts")`
performed by `normalize_specifier` replaces every leftmost non-overlapping
occurrence of `.d.ts.d.ts` throughout the string, not only in suffix
position: splitting the input at its first occurrence as `a ++ ".d.ts.d.ts"
++ b` (no occurrence starting inside `a`), the output is `a ++ ".d.ts"`
followed by the same rewrite of the remainder `b`.  In particular, an input
whose only occurrence is a trailing `.d.ts.d.ts` is rewritten to end in
`.d.ts` (take `b = []`). -/
theorem normalize_specifier_replaces (a b : List Char)
    (h : ∀ i, i < a.length →
      ¬ (".d.ts.d.ts".data.isPrefixOf ((a ++ ".d.ts.d.ts".data ++ b).drop i))) :
    normalizeSpecifierStr (String.mk (a ++ ".d.ts.d.ts".data ++ b)) =
      String.mk (a ++ ".d.ts".data ++ (normalizeSpecifierStr (String.mk b)).data) := by
  show String.mk (replaceChars ".d.ts.d.ts".data ".d.ts".data
      (a ++ ".d.ts.d.ts".data ++ b).length (a ++ ".d.ts.d.ts".data ++ b)) = _
  rw [replaceChars_append ".d.ts.d.ts".data ".d.ts".data (by decide) a b h]
  rfl

/-- Claim C9 counterexample: on `a.d.ts.d.ts/b.js` — where `.d.ts.d.ts` occurs
but not as a suffix, so the claim predicts the input is returned unchanged —
`normalize_specifier`'s rewrite changes the string to `a.d.ts/b.js`. -/
theorem normalize_specifier_rewrites_interior :
    normalizeSpecifierStr "a.d.ts.d.ts/b.js" = "a.d.ts/b.js" ∧
    ¬ (".d.ts.d.ts".data.isSuffixOf "a.d.ts.d.ts/b.js".data) ∧
    ("a.d.ts/b.js" : String) ≠ "a.d.ts.d.ts/b.js" := by
  refine ⟨by decide, by decide, by decide⟩

/-- Witness for the amended C9 at a concrete interior occurrence. -/
theorem normalize_specifier_replaces_witness :
    normalizeSpecifierStr (String.mk ("x/".data ++ ".d.ts.d.ts".data ++ "/y.js".data)) =
      String.mk ("x/".data ++ ".d.ts".data ++
        (normalizeSpecifierStr (String.mk "/y.js".data)).data) :=
  normalize_specifier_replaces "x/".data "/y.js".data (by decide)

/-! # C4: `internal:` scheme isolation -/

theorem takeScheme_append (pre rest : List Char) (h : ':' ∉ pre) :
    takeScheme (pre ++ ':' :: rest) = some pre := by
  induction pre with
  | nil => simp [takeScheme]
  | cons c cs ih =>
    simp only [List.mem_cons] at h
    push_neg at h
    simp only [List.cons_append, takeScheme]
    rw [if_neg (fun hc => h.1 hc.symm)]
    simp only [List.append_eq]
    rw [ih h.2]
    rfl

theorem urlScheme_internal (s : String) (t : List Char)
    (hs : s.data = "internal:".data ++ t) : urlScheme s = some "internal" := by
  unfold urlScheme
  rw [hs]
  rw [show "internal:".data ++ t = "internal".data ++ (':' :: t) by
    rw [show "internal:".data = "internal".data ++ [':'] from by decide]
    simp]
  rw [takeScheme_append "internal".data t (by decide)]
  decide

/-- Claim C4 (amended): with the snapshot-loaded-and-not-snapshotting flag
set, `resolve_helper` fails with "Cannot load internal module from external
code" for every specifier starting with `internal:`, regardless of the
referrer — even an `internal:`-scheme referrer.  The referrer-based rule the
claim describes lives in `InternalModuleLoader::resolve` and takes effect
when the flag is not consulted (flag unset): then an `internal:` specifier
resolves from an `internal:` referrer and is refused from any other
URL referrer. -/
theorem resolve_internal_scheme (inner : LoaderResolve) (specifier referrer : String)
    (kind : ResolutionKind)
    (hspec : "internal:".data.isPrefixOf specifier.data) :
    resolve_helper true (internalLoaderResolve inner) specifier referrer kind =
      some (Except.error cannotLoadInternalMessage) ∧
    (urlScheme referrer = some "internal" →
      resolve_helper false (internalLoaderResolve inner) specifier referrer kind =
        some (Except.ok specifier)) ∧
    (∀ rs, urlScheme referrer = some rs → rs ≠ "internal" →
      resolve_helper false (internalLoaderResolve inner) specifier referrer kind =
        some (Except.error cannotLoadInternalMessage)) := by
  have hscheme : urlScheme specifier = some "internal" := by
    obtain ⟨t, ht⟩ := List.isPrefixOf_iff_prefix.mp hspec
    exact urlScheme_internal specifier t ht.symm
  have hdot : ∀ rs : String, urlScheme referrer = some rs → referrer ≠ "." := by
    intro rs hr href
    rw [href] at hr
    rw [show urlScheme "." = none from by decide] at hr
    exact Option.noConfusion hr
  refine ⟨?_, ?_, ?_⟩
  · unfold resolve_helper
    rw [if_pos ⟨rfl, hspec⟩]
  · intro hr
    unfold resolve_helper
    rw [if_neg (by simp)]
    unfold internalLoaderResolve
    rw [hscheme]
    simp only [if_pos rfl]
    rw [if_neg (hdot "internal" hr)]
    rw [hr]
    simp
  · intro rs hr hrs
    unfold resolve_helper
    rw [if_neg (by simp)]
    unfold internalLoaderResolve
    rw [hscheme]
    simp only [if_pos rfl]
    rw [if_neg (hdot rs hr)]
    rw [hr]
    simp [hrs]

/-- Claim C4 counterexample: with the flag set, resolving `internal:foo` from
the `internal:`-scheme referrer `internal:bar` — which the claim says
succeeds — is refused by `resolve_helper` before the loader's referrer check
runs. -/
theorem resolve_internal_refused_from_internal :
    resolve_helper true (internalLoaderResolve noopResolve) "internal:foo"
      "internal:bar" ResolutionKind.Import =
      some (Except.error cannotLoadInternalMessage) ∧
    urlScheme "internal:bar" = some "internal" := by
  refine ⟨by decide, by decide⟩

/-- Witness for the amended C4: concrete refusals with the flag set and, with
the flag unset, from a `file://` referrer. -/
theorem resolve_internal_scheme_witness :
    resolve_helper true (internalLoaderResolve noopResolve) "internal:x"
      "file:///y.js" ResolutionKind.Import =
      some (Except.error cannotLoadInternalMessage) ∧
    resolve_helper false (internalLoaderResolve noopResolve) "internal:x"
      "file:///y.js" ResolutionKind.Import =
      some (Except.error cannotLoadInternalMessage) :=
  ⟨(resolve_internal_scheme noopResolve "internal:x" "file:///y.js"
      ResolutionKind.Import (by decide)).1,
   (resolve_internal_scheme noopResolve "internal:x" "file:///y.js"
      ResolutionKind.Import (by decide)).2.2 "file" (by decide) (by decide)⟩

/-! # C5: module-type / assertion mismatch -/

/-- Claim C5: `register_and_recurse` fails with the descriptive `Other` error
— registering nothing (the model returns no successor state on an error, and
the source returns before any registry mutation) — whenever the asserted
module type derived from the source's module type differs from the request's;
in particular a JSON source requested without a json assertion, and a
JavaScript source requested with one, both fail. -/
theorem register_type_mismatch (eng : Engine) (m : ModuleMap) (l : LoadRec)
    (request : ModuleRequest) (source : ModuleSource) :
    (request.asserted_module_type ≠ AssertedModuleType.fromModuleType source.module_type →
      registerAndRecurse eng m l request source =
        RegResult.err (ModuleError.other (mismatchMessage request source))) ∧
    (source.module_type = ModuleType.Json →
      request.asserted_module_type = AssertedModuleType.JavaScriptOrWasm →
      registerAndRecurse eng m l request source =
        RegResult.err (ModuleError.other (mismatchMessage request source))) ∧
    (source.module_type = ModuleType.JavaScript →
      request.asserted_module_type = AssertedModuleType.Json →
      registerAndRecurse eng m l request source =
        RegResult.err (ModuleError.other (mismatchMessage request source))) := by
  have hmain : request.asserted_module_type ≠
      AssertedModuleType.fromModuleType source.module_type →
      registerAndRecurse eng m l request source =
        RegResult.err (ModuleError.other (mismatchMessage request source)) := by
    intro h
    simp only [registerAndRecurse]
    rw [if_pos h]
  refine ⟨hmain, fun hs hr => hmain (by rw [hs, hr]; decide), fun hs hr =>
    hmain (by rw [hs, hr]; decide)⟩

/-- Witness for C5: fetching a JSON source under a plain (non-json) request
fails with the type-mismatch error. -/
theorem register_type_mismatch_witness :
    registerAndRecurse trivialEngine ModuleMap.new loadImportsC3
      (reqJs "file:///d.json") srcJsonC5 =
      RegResult.err (ModuleError.other
        (mismatchMessage (reqJs "file:///d.json") srcJsonC5)) :=
  (register_type_mismatch trivialEngine ModuleMap.new loadImportsC3
    (reqJs "file:///d.json") srcJsonC5).2.1 rfl rfl

/-! # C7: termination of `get_id` without alias cycles -/

theorem get_id_fuel_mono (m : ModuleMap) (amt : AssertedModuleType) :
    ∀ f name r, m.get_id_fuel amt f name = some r →
      m.get_id_fuel amt (f + 1) name = some r := by
  intro f
  induction f with
  | zero => intro name r h; exact absurd h (by simp [ModuleMap.get_id_fuel])
  | succ n ih =>
    intro name r h
    simp only [ModuleMap.get_id_fuel] at h ⊢
    cases hl : lookupBN m.by_name (name, amt) with
    | none => simp only [hl] at h ⊢; exact h
    | some sym =>
      cases sym with
      | Alias t => simp only [hl] at h ⊢; exact ih t r h
      | Mod id => simp only [hl] at h ⊢; exact h

theorem get_id_fuel_le (m : ModuleMap) (amt : AssertedModuleType)
    (f g : Nat) (name : String) (r : Option ModuleId)
    (h : m.get_id_fuel amt f name = some r) (hfg : f ≤ g) :
    m.get_id_fuel amt g name = some r := by
  induction g with
  | zero =>
    have : f = 0 := Nat.le_zero.mp hfg
    subst this; exact h
  | succ n ih =>
    rcases Nat.lt_or_ge f (n + 1) with hlt | hge
    · exact get_id_fuel_mono m amt n name r (ih (Nat.lt_succ_iff.mp hlt))
    · have : f = n + 1 := Nat.le_antisymm hfg hge
      subst this; exact h

theorem aliasChain_of_none (m : ModuleMap) (amt : AssertedModuleType) :
    ∀ f name, m.get_id_fuel amt f name = none →
      (aliasChain m amt f name).length = f ∧
      ∀ x ∈ aliasChain m amt f name, ∃ t, aliasStep m amt x = some t := by
  intro f
  induction f with
  | zero => intro name _; exact ⟨rfl, by simp [aliasChain]⟩
  | succ n ih =>
    intro name h
    simp only [ModuleMap.get_id_fuel] at h
    cases hl : lookupBN m.by_name (name, amt) with
    | none => simp [hl] at h
    | some sym =>
      cases sym with
      | Mod id => simp [hl] at h
      | Alias t =>
        simp only [hl] at h
        have hstep : aliasStep m amt name = some t := by simp [aliasStep, hl]
        obtain ⟨hlen, hmem⟩ := ih t h
        refine ⟨by simp [aliasChain, hstep, hlen], ?_⟩
        intro x hx
        simp only [aliasChain, hstep] at hx
        rcases List.mem_cons.mp hx with rfl | hx'
        · exact ⟨t, hstep⟩
        · exact hmem x hx'

theorem mem_aliasChain_iter (m : ModuleMap) (amt : AssertedModuleType) :
    ∀ f name x, x ∈ aliasChain m amt f name →
      ∃ j, iterAlias m amt j name = some x := by
  intro f
  induction f with
  | zero => intro name x hx; simp [aliasChain] at hx
  | succ n ih =>
    intro name x hx
    cases hstep : aliasStep m amt name with
    | none => simp [aliasChain, hstep] at hx
    | some t =>
      simp only [aliasChain, hstep] at hx
      rcases List.mem_cons.mp hx with rfl | hx'
      · exact ⟨0, rfl⟩
      · obtain ⟨j, hj⟩ := ih t x hx'
        exact ⟨j + 1, by simp [iterAlias, hstep, hj]⟩

theorem aliasChain_nodup (m : ModuleMap) (amt : AssertedModuleType)
    (hnc : NoAliasCycle m amt) : ∀ f name, (aliasChain m amt f name).Nodup := by
  intro f
  induction f with
  | zero => intro name; simp [aliasChain]
  | succ n ih =>
    intro name
    cases hstep : aliasStep m amt name with
    | none => simp [aliasChain, hstep]
    | some t =>
      simp only [aliasChain, hstep]
      refine List.nodup_cons.mpr ⟨?_, ih t⟩
      intro hmem
      obtain ⟨j, hj⟩ := mem_aliasChain_iter m amt n t name hmem
      exact hnc name (j + 1) (Nat.succ_pos j) (by simp [iterAlias, hstep, hj])

theorem aliasChain_keys (m : ModuleMap) (amt : AssertedModuleType) :
    ∀ f name x, x ∈ aliasChain m amt f name →
      x ∈ m.by_name.map (fun e => e.1.1) := by
  intro f
  induction f with
  | zero => intro name x hx; simp [aliasChain] at hx
  | succ n ih =>
    intro name x hx
    cases hstep : aliasStep m amt name with
    | none => simp [aliasChain, hstep] at hx
    | some t =>
      simp only [aliasChain, hstep] at hx
      rcases List.mem_cons.mp hx with rfl | hx'
      · have hlk : ∃ sym, lookupBN m.by_name (x, amt) = some sym := by
          unfold aliasStep at hstep
          cases hl : lookupBN m.by_name (x, amt) with
          | none => rw [hl] at hstep; exact Option.noConfusion hstep
          | some sym => exact ⟨sym, rfl⟩
        obtain ⟨sym, hl⟩ := hlk
        have hk := mem_keys_of_lookupBN m.by_name (x, amt) sym hl
        simp only [List.mem_map] at hk ⊢
        obtain ⟨e, he, hek⟩ := hk
        exact ⟨e, he, by rw [hek]⟩
      · exact ih t x hx'

/-- Claim C7: when `by_name` has no cycle of `Alias` entries for the fixed
asserted module type, the `get_id` loop terminates: fuel `by_name.length + 1`
already yields its answer, any larger fuel yields the same answer (which is
`ModuleMap.get_id`), and the walk ends at a name whose entry is either absent
(answer `none`) or a `Mod` binding (answer that id). -/
theorem get_id_terminates (m : ModuleMap) (amt : AssertedModuleType)
    (hnc : NoAliasCycle m amt) (name : String) :
    m.get_id_fuel amt (m.by_name.length + 1) name = some (m.get_id name amt) ∧
    (∀ fuel, m.by_name.length + 1 ≤ fuel →
      m.get_id_fuel amt fuel name = some (m.get_id name amt)) ∧
    (∃ k x, iterAlias m amt k name = some x ∧
      ((lookupBN m.by_name (x, amt) = none ∧ m.get_id name amt = none) ∨
       (∃ id, lookupBN m.by_name (x, amt) = some (SymbolicModule.Mod id) ∧
          m.get_id name amt = some id))) := by
  have hterm : m.get_id_fuel amt (m.by_name.length + 1) name ≠ none := by
    intro hnone
    obtain ⟨hlen, _⟩ := aliasChain_of_none m amt (m.by_name.length + 1) name hnone
    have hle : (aliasChain m amt (m.by_name.length + 1) name).length ≤
        (m.by_name.map (fun e => e.1.1)).length :=
      ((aliasChain_nodup m amt hnc _ name).subperm
        (fun x hx => aliasChain_keys m amt _ name x hx)).length_le
    rw [hlen, List.length_map] at hle
    omega
  obtain ⟨r, hr⟩ := Option.ne_none_iff_exists'.mp hterm
  have hget : m.get_id name amt = r := by
    rw [ModuleMap.get_id, hr]; rfl
  have hstable : ∀ fuel, m.by_name.length + 1 ≤ fuel →
      m.get_id_fuel amt fuel name = some r :=
    fun fuel hf => get_id_fuel_le m amt (m.by_name.length + 1) fuel name r hr hf
  have hchar : ∀ f nm rr, m.get_id_fuel amt f nm = some rr →
      ∃ k x, iterAlias m amt k nm = some x ∧
        ((lookupBN m.by_name (x, amt) = none ∧ rr = none) ∨
         (∃ id, lookupBN m.by_name (x, amt) = some (SymbolicModule.Mod id) ∧
            rr = some id)) := by
    intro f
    induction f with
    | zero => intro nm rr h; exact absurd h (by simp [ModuleMap.get_id_fuel])
    | succ n ih =>
      intro nm rr h
      simp only [ModuleMap.get_id_fuel] at h
      cases hl : lookupBN m.by_name (nm, amt) with
      | none =>
        simp only [hl] at h
        exact ⟨0, nm, rfl, Or.inl ⟨hl, (Option.some_inj.mp h).symm⟩⟩
      | some sym =>
        cases sym with
        | Mod id =>
          simp only [hl] at h
          exact ⟨0, nm, rfl, Or.inr ⟨id, hl, (Option.some_inj.mp h).symm⟩⟩
        | Alias t =>
          simp only [hl] at h
          obtain ⟨k, x, hiter, hend⟩ := ih t rr h
          refine ⟨k + 1, x, ?_, hend⟩
          simp [iterAlias, aliasStep, hl, hiter]
  rw [hget]
  exact ⟨hr, hstable, hchar (m.by_name.length + 1) name r hr⟩

/-- Witness for C7 on the empty registry (no aliases, hence no alias cycle):
`get_id` stabilizes at fuel 1 and returns its answer for any name. -/
theorem get_id_terminates_witness :
    ModuleMap.new.get_id_fuel AssertedModuleType.JavaScriptOrWasm 1 "file:///a.js" =
      some (ModuleMap.new.get_id "file:///a.js" AssertedModuleType.JavaScriptOrWasm) :=
  (get_id_terminates ModuleMap.new AssertedModuleType.JavaScriptOrWasm
    (fun name k hk hcycle => by
      cases k with
      | zero => omega
      | succ j =>
        rw [show iterAlias ModuleMap.new AssertedModuleType.JavaScriptOrWasm (j + 1) name =
            none from by simp [iterAlias, aliasStep, ModuleMap.new, lookupBN]] at hcycle
        exact Option.noConfusion hcycle)
    "file:///a.js").1

/-! # C2: snapshot round-trip -/

theorem toI32_of_lt (n : Nat) (h : n < 2147483648) : toI32 (n : Int) = (n : Int) := by
  unfold toI32
  omega

theorem i64ToUsize_of_lt (n : Nat) (h : n < 2147483648) :
    i64ToUsize (toI32 (n : Int)) = n := by
  rw [toI32_of_lt n h]
  unfold i64ToUsize
  omega

theorem parse_toNum_amt (amt : AssertedModuleType) :
    parseAssertedModuleTypeNum amt.toNum = some amt := by
  cases amt <;> rfl

theorem parse_toNum_mt (mt : ModuleType) : parseModuleTypeNum mt.toNum = some mt := by
  cases mt <;> rfl

theorem decode_serialize_requests (reqs : List ModuleRequest) :
    decodeRequestPairs (serializeRequestsFlat reqs) = some reqs := by
  induction reqs with
  | nil => rfl
  | cons r rest ih =>
    show decodeRequestPairs (V8Value.str r.specifier ::
      V8Value.int r.asserted_module_type.toNum :: serializeRequestsFlat rest) = _
    simp [decodeRequestPairs, v8ToInteger, parse_toNum_amt, ih, v8ToStringLossy]

theorem decode_serialize_info (i : ModuleInfo) :
    decodeInfoEntry (serializeInfoEntry i) =
      some { i with id := i64ToUsize (toI32 (i.id : Int)) } := by
  simp [decodeInfoEntry, serializeInfoEntry, v8AsArray, v8ToInteger, v8ToBoolean,
    v8ToStringLossy, decode_serialize_requests, parse_toNum_mt]

theorem decode_serialize_byname (e : BNKey × SymbolicModule)
    (h : symIdBelow e.2 = true) :
    decodeByNameEntry (serializeByNameEntry e) = some e := by
  obtain ⟨⟨nm, amt⟩, sym⟩ := e
  cases sym with
  | Alias t =>
    simp [decodeByNameEntry, serializeByNameEntry, v8AsArray, v8ToInteger,
      parse_toNum_amt, v8IsNumber, v8ToStringLossy]
  | Mod id =>
    have hid : id < 2147483648 := by simpa [symIdBelow] using h
    have hnn : ¬ ((id : Int) < 0) := by omega
    simp [decodeByNameEntry, serializeByNameEntry, v8AsArray, v8ToInteger,
      parse_toNum_amt, v8IsNumber, v8ToStringLossy, toI32_of_lt id hid,
      i64TryIntoUsize, hnn]

theorem mapM_map_eq_some {α β γ : Type} (f : β → Option γ) (g : α → β) (h0 : α → γ) :
    ∀ l : List α, (∀ x ∈ l, f (g x) = some (h0 x)) →
      (l.map g).mapM f = some (l.map h0) := by
  intro l
  induction l with
  | nil => intro _; rfl
  | cons x xs ih =>
    intro h
    simp only [List.map_cons, List.mapM_cons]
    rw [h x (List.mem_cons_self x xs), ih (fun y hy => h y (List.mem_cons_of_mem x hy))]
    rfl

theorem foldl_insert_lookup :
    ∀ (l acc : List (BNKey × SymbolicModule)), NodupKeys l →
      (∀ k, k ∈ acc.map (fun e => e.1) → k ∉ l.map (fun e => e.1)) →
      ∀ k, lookupBN (l.foldl (fun a e => insertBN a e.1 e.2) acc) k =
        (match lookupBN l k with
         | some v => some v
         | none => lookupBN acc k) := by
  intro l
  induction l with
  | nil => intro acc _ _ k; simp [lookupBN]
  | cons e rest ih =>
    intro acc hnd hdisj k
    obtain ⟨ke, ve⟩ := e
    simp only [List.foldl_cons]
    have hnd' : NodupKeys rest := by
      simp only [NodupKeys, List.map_cons, List.nodup_cons] at hnd
      exact hnd.2
    have hke : ke ∉ rest.map (fun e => e.1) := by
      simp only [NodupKeys, List.map_cons, List.nodup_cons] at hnd
      exact hnd.1
    have hdisj' : ∀ k', k' ∈ (insertBN acc ke ve).map (fun e => e.1) →
        k' ∉ rest.map (fun e => e.1) := by
      intro k' hk'
      simp only [insertBN, List.map_cons, List.mem_cons] at hk'
      rcases hk' with rfl | hk'
      · exact hke
      · obtain ⟨e', he', rfl⟩ := List.mem_map.mp hk'
        have : e' ∈ acc := List.mem_of_mem_filter he'
        have h2 := hdisj e'.1 (List.mem_map.mpr ⟨e', this, rfl⟩)
        simp only [List.map_cons, List.mem_cons] at h2
        push_neg at h2
        exact h2.2
    rw [ih (insertBN acc ke ve) hnd' hdisj' k]
    by_cases hk : k = ke
    · subst hk
      rw [lookupBN_eq_none rest k hke, lookupBN_insert_self]
      simp [lookupBN]
    · rw [lookupBN_insert_ne acc ke k ve hk]
      have : lookupBN ((ke, ve) :: rest) k = lookupBN rest k := by
        simp [lookupBN, hk]
      rw [this]

theorem foldl_insert_length :
    ∀ (l acc : List (BNKey × SymbolicModule)), NodupKeys l →
      (∀ k, k ∈ acc.map (fun e => e.1) → k ∉ l.map (fun e => e.1)) →
      (l.foldl (fun a e => insertBN a e.1 e.2) acc).length = acc.length + l.length := by
  intro l
  induction l with
  | nil => intro acc _ _; rfl
  | cons e rest ih =>
    intro acc hnd hdisj
    obtain ⟨ke, ve⟩ := e
    simp only [List.foldl_cons]
    have hnd' : NodupKeys rest := by
      simp only [NodupKeys, List.map_cons, List.nodup_cons] at hnd
      exact hnd.2
    have hke : ke ∉ rest.map (fun e => e.1) := by
      simp only [NodupKeys, List.map_cons, List.nodup_cons] at hnd
      exact hnd.1
    have hkacc : ke ∉ acc.map (fun e => e.1) := by
      intro hmem
      exact hdisj ke hmem (by simp)
    have hdisj' : ∀ k', k' ∈ (insertBN acc ke ve).map (fun e => e.1) →
        k' ∉ rest.map (fun e => e.1) := by
      intro k' hk'
      simp only [insertBN, List.map_cons, List.mem_cons] at hk'
      rcases hk' with rfl | hk'
      · exact hke
      · obtain ⟨e', he', rfl⟩ := List.mem_map.mp hk'
        have : e' ∈ acc := List.mem_of_mem_filter he'
        have h2 := hdisj e'.1 (List.mem_map.mpr ⟨e', this, rfl⟩)
        simp only [List.map_cons, List.mem_cons] at h2
        push_neg at h2
        exact h2.2
    rw [ih (insertBN acc ke ve) hnd' hdisj']
    have hfl : acc.filter (fun e => e.1 ≠ ke) = acc := by
      apply List.filter_eq_self.mpr
      intro e' he'
      have : e'.1 ≠ ke := by
        intro hh
        exact hkacc (List.mem_map.mpr ⟨e', he', hh⟩)
      simpa using this
    simp only [insertBN, hfl, List.length_cons]
    omega

theorem get_id_fuel_congr (m1 m2 : ModuleMap)
    (h : ∀ k, lookupBN m1.by_name k = lookupBN m2.by_name k) :
    ∀ f amt name, m1.get_id_fuel amt f name = m2.get_id_fuel amt f name := by
  intro f
  induction f with
  | zero => intro amt name; rfl
  | succ n ih =>
    intro amt name
    simp only [ModuleMap.get_id_fuel, h (name, amt)]
    cases lookupBN m2.by_name (name, amt) with
    | none => rfl
    | some sym =>
      cases sym with
      | Alias t => exact ih amt t
      | Mod id => rfl

/-- Claim C2: serializing a registry (whose ids fit in an i32 — they are
allocated sequentially — whose hash map is well-formed, and whose
`next_load_id` is an i32 as its Rust type dictates) and restoring the data
into any registry succeeds and yields: the same `next_load_id`, a structurally
equal `info` table (so every `Mod` id points to a structurally equal
`ModuleInfo`), and a `by_name` table that is the hash-map rebuild of the
original — pointwise equal under lookup (so aliases stay aliases with the
same target, bindings stay bindings) and giving `get_id` the same result for
every `(name, asserted module type)` pair. -/
theorem snapshot_roundtrip (m start : ModuleMap) (module_handles : Nat)
    (hIds : ∀ i ∈ m.info, i.id < 2147483648)
    (hMods : ∀ e ∈ m.by_name, symIdBelow e.2 = true)
    (hKeys : NodupKeys m.by_name)
    (hNl : -2147483648 ≤ m.next_load_id ∧ m.next_load_id < 2147483648) :
    start.update_with_snapshot_data m.serialize_for_snapshotting module_handles =
      some { handles := module_handles, info := m.info,
             by_name := rebuildBN m.by_name, next_load_id := m.next_load_id } ∧
    (∀ k, lookupBN (rebuildBN m.by_name) k = lookupBN m.by_name k) ∧
    (rebuildBN m.by_name).length = m.by_name.length ∧
    (∀ name amt,
      ModuleMap.get_id
        ({ handles := module_handles, info := m.info,
           by_name := rebuildBN m.by_name, next_load_id := m.next_load_id } : ModuleMap)
        name amt =
      m.get_id name amt) := by
  have hdis : ∀ k : BNKey, k ∈ ([] : List (BNKey × SymbolicModule)).map (fun e => e.1) →
      k ∉ m.by_name.map (fun e => e.1) := by simp
  have hlook : ∀ k, lookupBN (rebuildBN m.by_name) k = lookupBN m.by_name k := by
    intro k
    rw [rebuildBN, foldl_insert_lookup m.by_name [] hKeys hdis k]
    cases lookupBN m.by_name k <;> rfl
  have hlen : (rebuildBN m.by_name).length = m.by_name.length := by
    rw [rebuildBN, foldl_insert_length m.by_name [] hKeys hdis]
    simp
  have hinfo : ∀ i ∈ m.info, decodeInfoEntry (serializeInfoEntry i) = some i := by
    intro i hi
    rw [decode_serialize_info i, i64ToUsize_of_lt i.id (hIds i hi)]
  have hmapinfo : (m.info.map serializeInfoEntry).mapM decodeInfoEntry = some m.info := by
    have := mapM_map_eq_some decodeInfoEntry serializeInfoEntry (fun i => i) m.info
      (fun x hx => hinfo x hx)
    simpa using this
  have hmapbn : (m.by_name.map serializeByNameEntry).mapM decodeByNameEntry =
      some m.by_name := by
    have := mapM_map_eq_some decodeByNameEntry serializeByNameEntry (fun e => e) m.by_name
      (fun x hx => decode_serialize_byname x (hMods x hx))
    simpa using this
  have hint : v8IsInt32 (V8Value.int m.next_load_id) = true := by
    simp only [v8IsInt32, decide_eq_true_eq]
    omega
  simp only [List.mapM] at hmapinfo hmapbn
  refine ⟨?_, hlook, hlen, ?_⟩
  · simp [ModuleMap.update_with_snapshot_data, ModuleMap.serialize_for_snapshotting,
      v8GetIndex, v8AsArray, v8ToInteger, hint, hmapinfo, hmapbn, rebuildBN]
  · intro name amt
    rw [ModuleMap.get_id, ModuleMap.get_id]
    rw [show ModuleMap.by_name
          ({ handles := module_handles, info := m.info,
             by_name := rebuildBN m.by_name, next_load_id := m.next_load_id } :
            ModuleMap) = rebuildBN m.by_name from rfl]
    rw [hlen]
    rw [get_id_fuel_congr _ m (fun k => hlook k) (m.by_name.length + 1) amt name]

/-- Witness for C2 on a concrete registry with a main module, a JSON request,
a binding and an alias. -/
theorem snapshot_roundtrip_witness :
    ModuleMap.new.update_with_snapshot_data mapSnapC2.serialize_for_snapshotting 1 =
      some { handles := 1, info := mapSnapC2.info,
             by_name := rebuildBN mapSnapC2.by_name,
             next_load_id := mapSnapC2.next_load_id } :=
  (snapshot_roundtrip mapSnapC2 ModuleMap.new 1 (by decide) (by decide)
    (by unfold NodupKeys; decide) (by decide)).1

/-! # C6: main-module uniqueness -/

theorem atMostOneMain_create (m : ModuleMap) (hm : AtMostOneMain m) (name : String)
    (mt : ModuleType) (main : Bool) (requests : List ModuleRequest)
    (hmain : main = true → m.info.find? (fun i => i.main) = none) :
    AtMostOneMain (m.create_module_info name mt main requests).2 := by
  unfold AtMostOneMain ModuleMap.create_module_info
  simp only [List.filter_append]
  cases main with
  | false =>
    simp only [List.filter]
    simpa using hm
  | true =>
    have hnone := hmain rfl
    have hfilter : m.info.filter (fun i => i.main) = [] :=
      List.filter_eq_nil_iff.mpr (List.find?_eq_none.mp hnone)
    simp [hfilter]

/-- Claim C6: at most one registered module is `main`, preserved by the
registering operations: `new_json_module` and a successful `new_es_module`
preserve the invariant, `alias` leaves `info` untouched, `new_es_module`
called with `main` set fails with the descriptive `Other` error (registering
nothing: the source returns before `create_module_info`, and the model
produces no state) whenever a main module is already registered and
compilation succeeded, and restoring a serialized snapshot of the registry
preserves the invariant as well. -/
theorem main_module_unique (eng : Engine) (m : ModuleMap) (hm : AtMostOneMain m) :
    (∀ name source id m2, ModuleMap.new_json_module eng m name source =
        Except.ok (id, m2) → AtMostOneMain m2) ∧
    (∀ name amt target, AtMostOneMain (m.alias name amt target)) ∧
    (∀ main name source isDyn id m2,
      ModuleMap.new_es_module eng m main name source isDyn = Except.ok (id, m2) →
        AtMostOneMain m2) ∧
    (∀ name source isDyn requests mm,
      eng.compileEs name source isDyn = Except.ok requests →
      m.info.find? (fun i => i.main) = some mm →
      ModuleMap.new_es_module eng m true name source isDyn =
        Except.error (ModuleError.other (dupMainMessage name mm.name))) ∧
    (∀ (start : ModuleMap) module_handles m2,
      start.update_with_snapshot_data m.serialize_for_snapshotting module_handles =
        some m2 → AtMostOneMain m2) := by
  refine ⟨?_, ?_, ?_, ?_, ?_⟩
  · intro name source id m2 h
    unfold ModuleMap.new_json_module at h
    cases hp : eng.parseJson (strip_bom source) with
    | error e => rw [hp] at h; exact absurd h (by simp)
    | ok u =>
      rw [hp] at h
      have h2 := Except.ok.inj h
      have hm2 : (m.create_module_info name ModuleType.Json false []).2 = m2 := by
        rw [h2]
      rw [← hm2]
      exact atMostOneMain_create m hm name ModuleType.Json false []
        (fun hfalse => Bool.noConfusion hfalse)
  · intro name amt target
    exact hm
  · intro main name source isDyn id m2 h
    unfold ModuleMap.new_es_module at h
    cases hc : eng.compileEs name source isDyn with
    | error e => rw [hc] at h; exact absurd h (by simp)
    | ok requests =>
      rw [hc] at h
      cases main with
      | true =>
        cases hf : m.info.find? (fun i => i.main) with
        | some mm => rw [hf] at h; exact absurd h (by simp)
        | none =>
          rw [hf] at h
          have h2 := Except.ok.inj h
          have hm2 : (m.create_module_info name ModuleType.JavaScript true requests).2 = m2 := by
            rw [h2]
          rw [← hm2]
          exact atMostOneMain_create m hm name ModuleType.JavaScript true requests
            (fun _ => hf)
      | false =>
        cases hf : m.info.find? (fun i => i.main) with
        | some mm =>
          rw [hf] at h
          have h2 := Except.ok.inj h
          have hm2 : (m.create_module_info name ModuleType.JavaScript false requests).2 = m2 := by
            rw [h2]
          rw [← hm2]
          exact atMostOneMain_create m hm name ModuleType.JavaScript false requests
            (fun hfalse => Bool.noConfusion hfalse)
        | none =>
          rw [hf] at h
          have h2 := Except.ok.inj h
          have hm2 : (m.create_module_info name ModuleType.JavaScript false requests).2 = m2 := by
            rw [h2]
          rw [← hm2]
          exact atMostOneMain_create m hm name ModuleType.JavaScript false requests
            (fun hfalse => Bool.noConfusion hfalse)
  · intro name source isDyn requests mm hc hf
    unfold ModuleMap.new_es_module
    rw [hc]
    simp [hf]
  · intro start module_handles m2 h
    have hmapinfo : (m.info.map serializeInfoEntry).mapM decodeInfoEntry =
        some (m.info.map (fun i => { i with id := i64ToUsize (toI32 (i.id : Int)) })) :=
      mapM_map_eq_some _ _ _ m.info (fun x _ => decode_serialize_info x)
    simp only [List.mapM] at hmapinfo
    simp only [ModuleMap.update_with_snapshot_data, ModuleMap.serialize_for_snapshotting,
      v8GetIndex, v8AsArray, v8ToInteger, List.getElem?_cons_zero, List.getElem?_cons_succ,
      Option.bind_eq_bind, Option.some_bind, List.mapM] at h
    split at h
    case isFalse => exact absurd h (by simp)
    case isTrue =>
      rw [hmapinfo] at h
      simp only [Option.some_bind] at h
      cases hbn : List.mapM.loop decodeByNameEntry (m.by_name.map serializeByNameEntry) [] with
      | none => rw [hbn] at h; exact absurd h (by simp)
      | some entries =>
        rw [hbn] at h
        simp only [Option.some_bind, Option.some_inj] at h
        have hinfo2 : m2.info =
            m.info.map (fun i => { i with id := i64ToUsize (toI32 (i.id : Int)) }) := by
          rw [← h]
        unfold AtMostOneMain
        rw [hinfo2]
        rw [List.filter_map]
        rw [List.length_map]
        have hcong : (fun i : ModuleInfo => i.main) ∘
            (fun i : ModuleInfo => { i with id := i64ToUsize (toI32 (i.id : Int)) }) =
            fun i : ModuleInfo => i.main := rfl
        rw [hcong]
        exact hm

/-- Witness for C6: with a main module registered, compiling another module
with `main` set fails with the duplicate-main error. -/
theorem main_module_unique_witness :
    ModuleMap.new_es_module trivialEngine mapMainC6 true "file:///two.js" [] false =
      Except.error (ModuleError.other (dupMainMessage "file:///two.js" "file:///main.js")) :=
  (main_module_unique trivialEngine mapMainC6
    (by unfold AtMostOneMain; decide)).2.2.2.1 "file:///two.js" [] false
    [] { id := 0, main := true, name := "file:///main.js", requests := [],
         module_type := ModuleType.JavaScript } rfl (by decide)

/-! # Lemmas about the `register_and_recurse` loop -/

theorem processImports_spec (m : ModuleMap) :
    ∀ imports visited queue enq v2 q2 e2,
      processImports m imports visited queue enq = (v2, q2, e2) →
      (∀ r ∈ visited, r ∈ v2) ∧
      ∃ δ, e2 = enq ++ δ ∧ δ.Nodup ∧ (∀ r ∈ δ, r ∉ visited) ∧ (∀ r ∈ δ, r ∈ v2) := by
  intro imports
  induction imports with
  | nil =>
    intro visited queue enq v2 q2 e2 h
    simp only [processImports] at h
    cases h
    exact ⟨fun r hr => hr, [], by simp, List.nodup_nil, by simp, by simp⟩
  | cons req rest ih =>
    intro visited queue enq v2 q2 e2 h
    simp only [processImports] at h
    by_cases hv : req ∈ visited
    · rw [if_pos hv] at h
      exact ih visited queue enq v2 q2 e2 h
    · rw [if_neg hv] at h
      have hins : insertVis req visited = req :: visited := by simp [insertVis, hv]
      cases hg : m.get_id req.specifier req.asserted_module_type with
      | some id =>
        simp only [hg] at h
        rw [hins] at h
        obtain ⟨hsub, δ, he2, hnd, hnv, hin⟩ :=
          ih (req :: visited) (queue ++ [(id, req)]) enq v2 q2 e2 h
        exact ⟨fun r hr => hsub r (List.mem_cons_of_mem req hr), δ, he2, hnd,
          fun r hr hmem => (hnv r hr) (List.mem_cons_of_mem req hmem), hin⟩
      | none =>
        simp only [hg] at h
        rw [hins] at h
        obtain ⟨hsub, δ, he2, hnd, hnv, hin⟩ :=
          ih (req :: visited) queue (enq ++ [req]) v2 q2 e2 h
        refine ⟨fun r hr => hsub r (List.mem_cons_of_mem req hr), req :: δ, ?_, ?_, ?_, ?_⟩
        · rw [he2]
          simp
        · refine List.nodup_cons.mpr ⟨?_, hnd⟩
          intro hmem
          exact (hnv req hmem) (List.mem_cons_self req visited)
        · intro r hr
          rcases List.mem_cons.mp hr with rfl | hr'
          · exact hv
          · intro hmem
            exact (hnv r hr') (List.mem_cons_of_mem req hmem)
        · intro r hr
          rcases List.mem_cons.mp hr with rfl | hr'
          · exact hsub r (List.mem_cons_self r visited)
          · exact hin r hr'

theorem recurseLoop_spec (m : ModuleMap) :
    ∀ fuel queue visited enq v2 e2,
      recurseLoopFuel m fuel queue visited enq = some (LoopResult.finished v2 e2) →
      (∀ r ∈ visited, r ∈ v2) ∧
      ∃ δ, e2 = enq ++ δ ∧ δ.Nodup ∧ (∀ r ∈ δ, r ∉ visited) ∧ (∀ r ∈ δ, r ∈ v2) := by
  intro fuel
  induction fuel with
  | zero =>
    intro queue visited enq v2 e2 h
    exact absurd h (by simp [recurseLoopFuel])
  | succ n ih =>
    intro queue visited enq v2 e2 h
    cases queue with
    | nil =>
      simp only [recurseLoopFuel, Option.some_inj] at h
      obtain ⟨rfl, rfl⟩ : visited = v2 ∧ enq = e2 := by
        injection h with h1 h2
        exact ⟨h1, h2⟩
      exact ⟨fun r hr => hr, [], by simp, List.nodup_nil, by simp, by simp⟩
    | cons hd qrest =>
      obtain ⟨id, req⟩ := hd
      simp only [recurseLoopFuel] at h
      cases hi : m.info[id]? with
      | none => simp [hi] at h
      | some inf =>
        simp only [hi] at h
        cases hp : processImports m inf.requests visited qrest enq with
        | mk v1 rest1 =>
          obtain ⟨q1, e1⟩ := rest1
          rw [hp] at h
          obtain ⟨hsub1, δ1, he1, hnd1, hnv1, hin1⟩ :=
            processImports_spec m inf.requests visited qrest enq v1 q1 e1 hp
          obtain ⟨hsub2, δ2, he2, hnd2, hnv2, hin2⟩ := ih q1 v1 e1 v2 e2 h
          refine ⟨fun r hr => hsub2 r (hsub1 r hr), δ1 ++ δ2, ?_, ?_, ?_, ?_⟩
          · rw [he2, he1, List.append_assoc]
          · exact List.Nodup.append hnd1 hnd2
              (fun r hr1 hr2 => (hnv2 r hr2) (hin1 r hr1))
          · intro r hr
            rcases List.mem_append.mp hr with hr1 | hr2
            · exact hnv1 r hr1
            · intro hmem
              exact (hnv2 r hr2) (hsub1 r hmem)
          · intro r hr
            rcases List.mem_append.mp hr with hr1 | hr2
            · exact hsub2 r (hin1 r hr1)
            · exact hin2 r hr2

theorem registerAndRecurse_ok_spec (eng : Engine) (m : ModuleMap) (l : LoadRec)
    (req : ModuleRequest) (src : ModuleSource) (m2 : ModuleMap) (l2 : LoadRec)
    (enq : List ModuleRequest)
    (h : registerAndRecurse eng m l req src = RegResult.ok m2 l2 enq) :
    (∀ r ∈ insertVis req l.visited, r ∈ l2.visited) ∧
    l2.pending = l.pending ++ enq ∧
    l2.loadLog = l.loadLog ++ enq ∧
    enq.Nodup ∧
    (∀ r ∈ enq, r ∉ insertVis req l.visited) ∧
    (∀ r ∈ enq, r ∈ l2.visited) ∧
    l2.state = (if l.pending ++ enq = [] then LoadState.Done
      else if l.state = LoadState.LoadingRoot then LoadState.LoadingImports
      else l.state) := by
  simp only [registerAndRecurse] at h
  split at h
  case isTrue => exact absurd h (by simp)
  case isFalse hmt =>
    split at h
    case h_1 e heq => exact absurd h (by simp)
    case h_2 module_id m2' heq =>
      split at h
      case h_1 => exact absurd h (by simp)
      case h_2 => exact absurd h (by simp)
      case h_3 v2 enq' hloop =>
        obtain ⟨hsub, δ, he, hnd, hnv, hin⟩ := recurseLoop_spec m2'
          (countUnvisited m2' (insertVis req l.visited) + 2)
          [(module_id, req)] (insertVis req l.visited) [] v2 enq' hloop
        have hδ : enq' = δ := by simpa using he
        subst hδ
        cases h
        exact ⟨hsub, rfl, rfl, hnd, hnv, hin, rfl⟩

/-! # C3: alias correctness under redirects -/

theorem lookup_create_self (m : ModuleMap) (name : String) (mt : ModuleType)
    (main : Bool) (reqs : List ModuleRequest) :
    lookupBN ((m.create_module_info name mt main reqs).2).by_name
      (name, AssertedModuleType.fromModuleType mt) =
    some (SymbolicModule.Mod (m.create_module_info name mt main reqs).1) := by
  simp only [ModuleMap.create_module_info]
  exact lookupBN_insert_self _ _ _

theorem lookup_create_ne (m : ModuleMap) (name : String) (mt : ModuleType)
    (main : Bool) (reqs : List ModuleRequest) (k : BNKey)
    (hk : k ≠ (name, AssertedModuleType.fromModuleType mt)) :
    lookupBN ((m.create_module_info name mt main reqs).2).by_name k =
      lookupBN m.by_name k := by
  simp only [ModuleMap.create_module_info]
  exact lookupBN_insert_ne _ _ _ _ hk

theorem new_es_ok_shape (eng : Engine) (m : ModuleMap) (main : Bool) (name : String)
    (source : List Nat) (dyn : Bool) (id : ModuleId) (m2 : ModuleMap)
    (h : ModuleMap.new_es_module eng m main name source dyn = Except.ok (id, m2)) :
    ∃ requests, (id, m2) = m.create_module_info name ModuleType.JavaScript main requests := by
  unfold ModuleMap.new_es_module at h
  cases hc : eng.compileEs name source dyn with
  | error e => rw [hc] at h; exact absurd h (by simp)
  | ok requests =>
    rw [hc] at h
    refine ⟨requests, ?_⟩
    cases main with
    | true =>
      cases hf : m.info.find? (fun i => i.main) with
      | some mm => rw [hf] at h; exact absurd h (by simp)
      | none => rw [hf] at h; exact (Except.ok.inj h).symm
    | false =>
      cases hf : m.info.find? (fun i => i.main) with
      | some mm => rw [hf] at h; exact (Except.ok.inj h).symm
      | none => rw [hf] at h; exact (Except.ok.inj h).symm

theorem new_json_ok_shape (eng : Engine) (m : ModuleMap) (name : String)
    (source : List Nat) (id : ModuleId) (m2 : ModuleMap)
    (h : ModuleMap.new_json_module eng m name source = Except.ok (id, m2)) :
    (id, m2) = m.create_module_info name ModuleType.Json false [] := by
  unfold ModuleMap.new_json_module at h
  cases hp : eng.parseJson (strip_bom source) with
  | error e => rw [hp] at h; exact absurd h (by simp)
  | ok u => rw [hp] at h; exact (Except.ok.inj h).symm

theorem get_id_of_lookup_mod (m : ModuleMap) (name : String) (amt : AssertedModuleType)
    (id : ModuleId) (h : lookupBN m.by_name (name, amt) = some (SymbolicModule.Mod id)) :
    m.get_id name amt = some id := by
  rw [ModuleMap.get_id]
  simp only [ModuleMap.get_id_fuel, h]
  rfl

theorem get_id_alias_mod (m : ModuleMap) (name t : String) (amt : AssertedModuleType)
    (id : ModuleId)
    (h1 : lookupBN m.by_name (name, amt) = some (SymbolicModule.Alias t))
    (h2 : lookupBN m.by_name (t, amt) = some (SymbolicModule.Mod id)) :
    m.get_id name amt = some id := by
  have hmem := mem_keys_of_lookupBN m.by_name (name, amt) _ h1
  have hpos : 0 < m.by_name.length := by
    cases hbn : m.by_name with
    | nil => rw [hbn] at hmem; simp at hmem
    | cons a rest => simp
  obtain ⟨k, hk⟩ : ∃ k, m.by_name.length = k + 1 := ⟨m.by_name.length - 1, by omega⟩
  rw [ModuleMap.get_id, hk]
  simp only [ModuleMap.get_id_fuel, h1, h2]
  rfl

theorem conclusions_of_lookups (m2 : ModuleMap) (spec found : String)
    (amt : AssertedModuleType) (id : ModuleId)
    (h1 : lookupBN m2.by_name (spec, amt) = some (SymbolicModule.Alias found))
    (h2 : lookupBN m2.by_name (found, amt) = some (SymbolicModule.Mod id)) :
    m2.bindsMod (found, amt) = true ∧
    (m2.get_id spec amt).isSome ∧
    m2.get_id spec amt = m2.get_id found amt := by
  have hspec := get_id_alias_mod m2 spec found amt id h1 h2
  have hfound := get_id_of_lookup_mod m2 found amt id h2
  refine ⟨by simp [ModuleMap.bindsMod, h2], by simp [hspec], by rw [hspec, hfound]⟩

/-- Claim C3 (amended): after `register_and_recurse` successfully processes a
source whose specified and found URLs differ, and provided the prior
`by_name` entry for the found URL was not itself an `Alias` (left over from
an earlier redirect chain), the specified URL is an `Alias` of the found URL,
the found URL is a `Mod` binding, and both resolve via `get_id` to the same
module id.  (Without that proviso the found URL can remain an alias; see the
counterexample.) -/
theorem register_alias_correct (eng : Engine) (m : ModuleMap) (l : LoadRec)
    (request : ModuleRequest) (source : ModuleSource) (m2 : ModuleMap) (l2 : LoadRec)
    (enq : List ModuleRequest)
    (hne : source.module_url_specified ≠ source.module_url_found)
    (hnoalias : ∀ t, lookupBN m.by_name
      (source.module_url_found,
        AssertedModuleType.fromModuleType source.module_type) ≠
      some (SymbolicModule.Alias t))
    (hok : registerAndRecurse eng m l request source = RegResult.ok m2 l2 enq) :
    lookupBN m2.by_name
      (source.module_url_specified,
        AssertedModuleType.fromModuleType source.module_type) =
      some (SymbolicModule.Alias source.module_url_found) ∧
    m2.bindsMod (source.module_url_found,
      AssertedModuleType.fromModuleType source.module_type) = true ∧
    (m2.get_id source.module_url_specified
      (AssertedModuleType.fromModuleType source.module_type)).isSome ∧
    m2.get_id source.module_url_specified
      (AssertedModuleType.fromModuleType source.module_type) =
      m2.get_id source.module_url_found
        (AssertedModuleType.fromModuleType source.module_type) := by
  have hkey_ne : ((source.module_url_found,
      AssertedModuleType.fromModuleType source.module_type) : BNKey) ≠
      (source.module_url_specified,
        AssertedModuleType.fromModuleType source.module_type) := by
    intro hp
    exact hne (congrArg Prod.fst hp).symm
  have haliasspec : lookupBN (m.alias source.module_url_specified
      (AssertedModuleType.fromModuleType source.module_type)
      source.module_url_found).by_name
      (source.module_url_specified,
        AssertedModuleType.fromModuleType source.module_type) =
      some (SymbolicModule.Alias source.module_url_found) :=
    lookupBN_insert_self _ _ _
  have hfound_eq : lookupBN (m.alias source.module_url_specified
      (AssertedModuleType.fromModuleType source.module_type)
      source.module_url_found).by_name
      (source.module_url_found,
        AssertedModuleType.fromModuleType source.module_type) =
      lookupBN m.by_name
      (source.module_url_found,
        AssertedModuleType.fromModuleType source.module_type) :=
    lookupBN_insert_ne _ _ _ _ hkey_ne
  simp only [registerAndRecurse] at hok
  rw [if_pos hne] at hok
  split at hok
  case isTrue => exact absurd hok (by simp)
  case isFalse hmt =>
    split at hok
    case h_1 e heq => exact absurd hok (by simp)
    case h_2 module_id m2' heq =>
      split at hok
      case h_1 => exact absurd hok (by simp)
      case h_2 => exact absurd hok (by simp)
      case h_3 v2 enq' hloop =>
        cases hok
        split at heq
        case h_1 id0 hgi =>
          cases heq
          have hlook : lookupBN (m.alias source.module_url_specified
              (AssertedModuleType.fromModuleType source.module_type)
              source.module_url_found).by_name
              (source.module_url_found,
                AssertedModuleType.fromModuleType source.module_type) =
              some (SymbolicModule.Mod module_id) := by
            cases hl : lookupBN m.by_name
                (source.module_url_found,
                  AssertedModuleType.fromModuleType source.module_type) with
            | none =>
              have hnone : (m.alias source.module_url_specified
                  (AssertedModuleType.fromModuleType source.module_type)
                  source.module_url_found).get_id source.module_url_found
                  (AssertedModuleType.fromModuleType source.module_type) = none := by
                rw [ModuleMap.get_id]
                simp only [ModuleMap.get_id_fuel, hfound_eq.trans hl]
                rfl
              rw [hgi] at hnone
              exact absurd hnone (by simp)
            | some sym =>
              cases sym with
              | Alias t => exact absurd hl (hnoalias t)
              | Mod mid =>
                have hmid := get_id_of_lookup_mod _ source.module_url_found
                  (AssertedModuleType.fromModuleType source.module_type) mid
                  (hfound_eq.trans hl)
                rw [hgi] at hmid
                rw [hfound_eq, hl, Option.some_inj.mp hmid]
          exact ⟨haliasspec,
            (conclusions_of_lookups _ _ _ _ module_id haliasspec hlook).1,
            (conclusions_of_lookups _ _ _ _ module_id haliasspec hlook).2.1,
            (conclusions_of_lookups _ _ _ _ module_id haliasspec hlook).2.2⟩
        case h_2 hgi =>
          split at heq
          case h_1 hmt2 =>
            obtain ⟨reqs2, hpair⟩ := new_es_ok_shape _ _ _ _ _ _ _ _ heq
            rw [hmt2] at haliasspec hpair ⊢
            have hm2 : m2 = ((m.alias source.module_url_specified
                (AssertedModuleType.fromModuleType ModuleType.JavaScript)
                source.module_url_found).create_module_info
                source.module_url_found ModuleType.JavaScript
                l.is_currently_loading_main_module reqs2).2 :=
              congrArg Prod.snd hpair
            subst hm2
            have h1 : lookupBN (((m.alias source.module_url_specified
                (AssertedModuleType.fromModuleType ModuleType.JavaScript)
                source.module_url_found).create_module_info
                source.module_url_found ModuleType.JavaScript
                l.is_currently_loading_main_module reqs2).2).by_name
                (source.module_url_specified,
                  AssertedModuleType.fromModuleType ModuleType.JavaScript) =
                some (SymbolicModule.Alias source.module_url_found) := by
              rw [lookup_create_ne _ _ _ _ _ _ (by
                intro hp
                exact hne (congrArg Prod.fst hp))]
              exact haliasspec
            have h2 := lookup_create_self (m.alias source.module_url_specified
                (AssertedModuleType.fromModuleType ModuleType.JavaScript)
                source.module_url_found) source.module_url_found
                ModuleType.JavaScript l.is_currently_loading_main_module reqs2
            exact ⟨h1,
              (conclusions_of_lookups _ _ _ _ _ h1 h2).1,
              (conclusions_of_lookups _ _ _ _ _ h1 h2).2.1,
              (conclusions_of_lookups _ _ _ _ _ h1 h2).2.2⟩
          case h_2 hmt2 =>
            have hpair := new_json_ok_shape _ _ _ _ _ _ heq
            rw [hmt2] at haliasspec hpair ⊢
            have hm2 : m2 = ((m.alias source.module_url_specified
                (AssertedModuleType.fromModuleType ModuleType.Json)
                source.module_url_found).create_module_info
                source.module_url_found ModuleType.Json false []).2 :=
              congrArg Prod.snd hpair
            subst hm2
            have h1 : lookupBN (((m.alias source.module_url_specified
                (AssertedModuleType.fromModuleType ModuleType.Json)
                source.module_url_found).create_module_info
                source.module_url_found ModuleType.Json false []).2).by_name
                (source.module_url_specified,
                  AssertedModuleType.fromModuleType ModuleType.Json) =
                some (SymbolicModule.Alias source.module_url_found) := by
              rw [lookup_create_ne _ _ _ _ _ _ (by
                intro hp
                exact hne (congrArg Prod.fst hp))]
              exact haliasspec
            have h2 := lookup_create_self (m.alias source.module_url_specified
                (AssertedModuleType.fromModuleType ModuleType.Json)
                source.module_url_found) source.module_url_found
                ModuleType.Json false []
            exact ⟨h1,
              (conclusions_of_lookups _ _ _ _ _ h1 h2).1,
              (conclusions_of_lookups _ _ _ _ _ h1 h2).2.1,
              (conclusions_of_lookups _ _ _ _ _ h1 h2).2.2⟩

/-- Claim C3 counterexample: a fetch of `file:///x.js` redirected to
`file:///y.js` is processed successfully, but `file:///y.js` — the found URL
— is (and stays) an `Alias` left over from an earlier redirect, not a `Mod`
binding, so "the non-alias is url_found" fails; both names still resolve to
module 0 through the chain. -/
theorem register_alias_found_stays_alias :
    registerAndRecurse trivialEngine mapChainC3 loadImportsC3
      (reqJs "file:///x.js") srcC3 =
      RegResult.ok
        { handles := 1
          info := [{ id := 0, main := false, name := "file:///z.js", requests := [],
                     module_type := ModuleType.JavaScript }]
          by_name := [(("file:///x.js", AssertedModuleType.JavaScriptOrWasm),
                        SymbolicModule.Alias "file:///y.js"),
                      (("file:///y.js", AssertedModuleType.JavaScriptOrWasm),
                        SymbolicModule.Alias "file:///z.js"),
                      (("file:///z.js", AssertedModuleType.JavaScriptOrWasm),
                        SymbolicModule.Mod 0)]
          next_load_id := 1 }
        { state := LoadState.Done, root_module_id := some 0
          root_asserted_module_type := some AssertedModuleType.JavaScriptOrWasm
          visited := [reqJs "file:///x.js"], pending := [], loadLog := []
          isMainInit := false, isDynamicImport := false }
        [] ∧
    srcC3.module_url_specified ≠ srcC3.module_url_found ∧
    ModuleMap.bindsMod
      { handles := 1
        info := [{ id := 0, main := false, name := "file:///z.js", requests := [],
                   module_type := ModuleType.JavaScript }]
        by_name := [(("file:///x.js", AssertedModuleType.JavaScriptOrWasm),
                      SymbolicModule.Alias "file:///y.js"),
                    (("file:///y.js", AssertedModuleType.JavaScriptOrWasm),
                      SymbolicModule.Alias "file:///z.js"),
                    (("file:///z.js", AssertedModuleType.JavaScriptOrWasm),
                      SymbolicModule.Mod 0)]
        next_load_id := 1 }
      ("file:///y.js", AssertedModuleType.JavaScriptOrWasm) = false := by
  refine ⟨by decide, by decide, by decide⟩

/-- Witness for the amended C3: a fresh redirect (`file:///a.js` found as
`file:///b.js`, previously unknown) installs the alias and the binding, and
both names resolve to the same id. -/
theorem register_alias_correct_witness :
    lookupBN
      (({ handles := 1
          info := [{ id := 0, main := false, name := "file:///b.js", requests := [],
                     module_type := ModuleType.JavaScript }]
          by_name := [(("file:///b.js", AssertedModuleType.JavaScriptOrWasm),
                        SymbolicModule.Mod 0),
                      (("file:///a.js", AssertedModuleType.JavaScriptOrWasm),
                        SymbolicModule.Alias "file:///b.js")]
          next_load_id := 1 } : ModuleMap)).by_name
      ("file:///a.js", AssertedModuleType.JavaScriptOrWasm) =
      some (SymbolicModule.Alias "file:///b.js") ∧
    ModuleMap.bindsMod
      { handles := 1
        info := [{ id := 0, main := false, name := "file:///b.js", requests := [],
                   module_type := ModuleType.JavaScript }]
        by_name := [(("file:///b.js", AssertedModuleType.JavaScriptOrWasm),
                      SymbolicModule.Mod 0),
                    (("file:///a.js", AssertedModuleType.JavaScriptOrWasm),
                      SymbolicModule.Alias "file:///b.js")]
        next_load_id := 1 }
      ("file:///b.js", AssertedModuleType.JavaScriptOrWasm) = true := by
  have h := register_alias_correct trivialEngine ModuleMap.new loadImportsC3
    (reqJs "file:///a.js")
    { code := [], module_type := ModuleType.JavaScript
      module_url_specified := "file:///a.js", module_url_found := "file:///b.js" }
    { handles := 1
      info := [{ id := 0, main := false, name := "file:///b.js", requests := [],
                 module_type := ModuleType.JavaScript }]
      by_name := [(("file:///b.js", AssertedModuleType.JavaScriptOrWasm),
                    SymbolicModule.Mod 0),
                  (("file:///a.js", AssertedModuleType.JavaScriptOrWasm),
                    SymbolicModule.Alias "file:///b.js")]
      next_load_id := 1 }
    { state := LoadState.Done, root_module_id := some 0
      root_asserted_module_type := some AssertedModuleType.JavaScriptOrWasm
      visited := [reqJs "file:///a.js"], pending := [], loadLog := []
      isMainInit := false, isDynamicImport := false }
    [] (by decide) (fun t => by simp [ModuleMap.new, lookupBN]) (by decide)
  exact ⟨h.1, h.2.1⟩

/-! # C1: at-most-once fetching -/

theorem length_filter_imp (l : List ModuleRequest) (p q : ModuleRequest → Bool)
    (h : ∀ x, p x = true → q x = true) :
    (l.filter p).length ≤ (l.filter q).length := by
  induction l with
  | nil => simp
  | cons a rest ih =>
    rw [List.filter_cons, List.filter_cons]
    by_cases hp : p a = true
    · rw [if_pos hp, if_pos (h a hp)]
      simp only [List.length_cons]
      exact Nat.succ_le_succ ih
    · rw [if_neg hp]
      by_cases hq : q a = true
      · rw [if_pos hq]
        exact Nat.le_succ_of_le ih
      · rw [if_neg hq]
        exact ih

theorem filter_unvisited_cons_lt (l : List ModuleRequest) (v : List ModuleRequest)
    (r : ModuleRequest) (hr : r ∈ l) (hnv : r ∉ v) :
    (l.filter (fun x => decide (x ∉ r :: v))).length <
      (l.filter (fun x => decide (x ∉ v))).length := by
  induction l with
  | nil => simp at hr
  | cons a rest ih =>
    rw [List.filter_cons, List.filter_cons]
    by_cases ha : a = r
    · subst ha
      rw [if_neg (by simp), if_pos (by simpa using hnv)]
      simp only [List.length_cons]
      have hmono := length_filter_imp rest (fun x => decide (x ∉ a :: v))
        (fun x => decide (x ∉ v))
        (fun x hx => by
          simp only [decide_eq_true_eq, List.mem_cons] at hx ⊢
          exact fun hv => hx (Or.inr hv))
      omega
    · rcases List.mem_cons.mp hr with heq | hr'
      · exact absurd heq.symm ha
      · by_cases hav : a ∈ v
        · rw [if_neg (by simp [hav]), if_neg (by simp [hav])]
          exact ih hr'
        · have harv : a ∉ r :: v := by
            simp only [List.mem_cons]
            push_neg
            exact ⟨ha, hav⟩
          rw [if_pos (by simpa using harv), if_pos (by simpa using hav)]
          simp only [List.length_cons]
          exact Nat.succ_lt_succ (ih hr')

theorem count_insert_lt (m : ModuleMap) (v : List ModuleRequest) (r : ModuleRequest)
    (hr : r ∈ universeReqs m) (hnv : r ∉ v) :
    countUnvisited m (r :: v) < countUnvisited m v :=
  filter_unvisited_cons_lt (universeReqs m) v r hr hnv

theorem mem_of_getElemOpt (l : List ModuleInfo) :
    ∀ (n : Nat) (a : ModuleInfo), l[n]? = some a → a ∈ l := by
  induction l with
  | nil => intro n a h; simp at h
  | cons x rest ih =>
    intro n a h
    cases n with
    | zero =>
      simp only [List.getElem?_cons_zero, Option.some_inj] at h
      exact h ▸ List.mem_cons_self x rest
    | succ k =>
      simp only [List.getElem?_cons_succ] at h
      exact List.mem_cons_of_mem x (ih k a h)

theorem info_requests_subset (m : ModuleMap) (id : ModuleId) (inf : ModuleInfo)
    (h : m.info[id]? = some inf) : ∀ r ∈ inf.requests, r ∈ universeReqs m := by
  have hmem : inf ∈ m.info := mem_of_getElemOpt m.info id inf h
  unfold universeReqs
  revert hmem
  generalize m.info = infos
  induction infos with
  | nil => intro hmem; simp at hmem
  | cons i rest ih =>
    intro hmem r hr
    simp only [List.foldr_cons, List.mem_append]
    rcases List.mem_cons.mp hmem with rfl | hmem'
    · exact Or.inl hr
    · exact Or.inr (ih hmem' r hr)

theorem processImports_measure (m : ModuleMap) :
    ∀ imports visited queue enq v2 q2 e2,
      (∀ r ∈ imports, r ∈ universeReqs m) →
      processImports m imports visited queue enq = (v2, q2, e2) →
      countUnvisited m v2 + q2.length ≤ countUnvisited m visited + queue.length := by
  intro imports
  induction imports with
  | nil =>
    intro visited queue enq v2 q2 e2 _ h
    simp only [processImports] at h
    cases h
    exact Nat.le_refl _
  | cons req rest ih =>
    intro visited queue enq v2 q2 e2 hsub h
    simp only [processImports] at h
    by_cases hv : req ∈ visited
    · rw [if_pos hv] at h
      exact ih visited queue enq v2 q2 e2
        (fun r hr => hsub r (List.mem_cons_of_mem req hr)) h
    · rw [if_neg hv] at h
      have hins : insertVis req visited = req :: visited := by simp [insertVis, hv]
      have hreq : req ∈ universeReqs m := hsub req (List.mem_cons_self req rest)
      have hlt := count_insert_lt m visited req hreq hv
      cases hg : m.get_id req.specifier req.asserted_module_type with
      | some id =>
        simp only [hg] at h
        rw [hins] at h
        have hstep := ih (req :: visited) (queue ++ [(id, req)]) enq v2 q2 e2
          (fun r hr => hsub r (List.mem_cons_of_mem req hr)) h
        simp only [List.length_append, List.length_cons, List.length_nil] at hstep
        omega
      | none =>
        simp only [hg] at h
        rw [hins] at h
        have hstep := ih (req :: visited) queue (enq ++ [req]) v2 q2 e2
          (fun r hr => hsub r (List.mem_cons_of_mem req hr)) h
        omega

theorem recurseLoopFuel_enough (m : ModuleMap) :
    ∀ fuel queue visited enq,
      countUnvisited m visited + queue.length + 1 ≤ fuel →
      recurseLoopFuel m fuel queue visited enq ≠ none := by
  intro fuel
  induction fuel with
  | zero =>
    intro queue visited enq h
    omega
  | succ n ih =>
    intro queue visited enq h
    cases queue with
    | nil => simp [recurseLoopFuel]
    | cons hd qrest =>
      obtain ⟨id, req⟩ := hd
      simp only [recurseLoopFuel]
      cases hi : m.info[id]? with
      | none => simp
      | some inf =>
        cases hp : processImports m inf.requests visited qrest enq with
        | mk v1 rest1 =>
          obtain ⟨q1, e1⟩ := rest1
          show recurseLoopFuel m n (processImports m inf.requests visited qrest enq).2.1
              (processImports m inf.requests visited qrest enq).1
              (processImports m inf.requests visited qrest enq).2.2 ≠ none
          rw [hp]
          show recurseLoopFuel m n q1 v1 e1 ≠ none
          apply ih
          have hmeas := processImports_measure m inf.requests visited qrest enq v1 q1 e1
            (info_requests_subset m id inf hi) hp
          simp only [List.length_cons] at h
          omega

theorem registerAndRecurse_fuel_enough (m : ModuleMap) (visited1 : List ModuleRequest)
    (module_id : ModuleId) (req : ModuleRequest) :
    recurseLoopFuel m (countUnvisited m visited1 + 2)
      [(module_id, req)] visited1 [] ≠ none := by
  apply recurseLoopFuel_enough
  simp only [List.length_cons, List.length_nil]
  omega

theorem mem_insertVis_of_mem (r x : ModuleRequest) (v : List ModuleRequest)
    (h : x ∈ v) : x ∈ insertVis r v := by
  unfold insertVis
  by_cases hm : r ∈ v
  · rw [if_pos hm]
    exact h
  · rw [if_neg hm]
    exact List.mem_cons_of_mem r h

theorem self_mem_insertVis (r : ModuleRequest) (v : List ModuleRequest) :
    r ∈ insertVis r v := by
  unfold insertVis
  by_cases hm : r ∈ v
  · rw [if_pos hm]
    exact hm
  · rw [if_neg hm]
    exact List.mem_cons_self r v

theorem initLoad_inv (m : ModuleMap) (rootReq : ModuleRequest) (a b : Bool) :
    LoadInv rootReq { map := m, load := initLoad m rootReq a b } :=
  ⟨List.nodup_nil, Or.inl ⟨rfl, rfl, rfl, rfl⟩⟩

theorem stepLoad_inv (eng : Engine) (rootReq : ModuleRequest) (s s2 : LoadGraphState)
    (e : LoadEvent) (hinv : LoadInv rootReq s)
    (h : stepLoad eng rootReq s e = some s2) : LoadInv rootReq s2 := by
  obtain ⟨hnd, hcase⟩ := hinv
  cases e with
  | pollInit =>
    cases hst : s.load.state with
    | Init =>
      simp only [stepLoad, hst] at h
      have hs2 := Option.some_inj.mp h
      subst hs2
      rcases hcase with ⟨_, hpend, hlog, hvis⟩ | ⟨hsi, _⟩ | ⟨hsor, _, _⟩
      · refine ⟨?_, Or.inr (Or.inl ⟨rfl, ?_, ?_, ?_⟩)⟩
        · cases hrm : s.load.root_module_id.isSome with
          | true => simp [hlog, hrm]
          | false => simp [hlog, hrm]
        · simp [hpend]
        · cases hrm : s.load.root_module_id.isSome with
          | true => left; simp [hlog, hrm]
          | false => right; simp [hlog, hrm]
        · simpa using hvis
      · rw [hst] at hsi
        exact absurd hsi (by decide)
      · rw [hst] at hsor
        rcases hsor with hsi | hsi <;> exact absurd hsi (by decide)
    | LoadingRoot =>
      simp only [stepLoad, hst] at h
      exact Option.noConfusion h
    | LoadingImports =>
      simp only [stepLoad, hst] at h
      exact Option.noConfusion h
    | Done =>
      simp only [stepLoad, hst] at h
      exact Option.noConfusion h
  | complete req src =>
    cases hst : s.load.state with
    | Init =>
      simp only [stepLoad, hst] at h
      exact Option.noConfusion h
    | Done =>
      simp only [stepLoad, hst] at h
      exact Option.noConfusion h
    | LoadingRoot =>
      simp only [stepLoad, hst] at h
      by_cases hmem : req ∈ s.load.pending
      case neg =>
        rw [if_neg hmem] at h
        exact Option.noConfusion h
      case pos =>
        rw [if_pos hmem] at h
        cases hreg : registerAndRecurse eng s.map
            { s.load with state := LoadState.LoadingRoot
                          pending := s.load.pending.erase req } req src with
        | err e0 =>
          simp only [hreg] at h
          exact Option.noConfusion h
        | panicked =>
          simp only [hreg] at h
          exact Option.noConfusion h
        | ok m2 l2 enqr =>
          simp only [hreg] at h
          have hs2 := Option.some_inj.mp h
          subst hs2
          obtain ⟨hsub, hpend2, hlog2, hnd2, hnv2, hin2, hstate2⟩ :=
            registerAndRecurse_ok_spec eng s.map
              { s.load with state := LoadState.LoadingRoot
                            pending := s.load.pending.erase req } req src m2 l2 enqr hreg
          have hsub' : ∀ x ∈ insertVis req s.load.visited, x ∈ l2.visited := hsub
          have hpend2' : l2.pending = s.load.pending.erase req ++ enqr := hpend2
          have hlog2' : l2.loadLog = s.load.loadLog ++ enqr := hlog2
          have hnv2' : ∀ x ∈ enqr, x ∉ insertVis req s.load.visited := hnv2
          have hstate2' : l2.state =
              (if s.load.pending.erase req ++ enqr = [] then LoadState.Done
               else if LoadState.LoadingRoot = LoadState.LoadingRoot then
                 LoadState.LoadingImports
               else LoadState.LoadingRoot) := hstate2
          rw [if_pos rfl] at hstate2'
          rcases hcase with ⟨hsi, _⟩ | ⟨_, hpend, hlogor, hvis⟩ | ⟨hsor, _, _⟩
          · rw [hst] at hsi
            exact absurd hsi (by decide)
          · have hreqroot : req = rootReq := by
              rw [hpend] at hmem
              simpa using hmem
            have herase : s.load.pending.erase req = [] := by
              rw [hpend, hreqroot]
              exact List.erase_cons_head rootReq []
            have hrootvis : rootReq ∈ l2.visited := by
              apply hsub'
              rw [hreqroot]
              exact self_mem_insertVis rootReq s.load.visited
            rw [herase] at hstate2' hpend2'
            simp only [List.nil_append] at hstate2' hpend2'
            refine ⟨?_, Or.inr (Or.inr ⟨?_, ?_, ?_⟩)⟩
            · show l2.loadLog.Nodup
              rw [hlog2']
              rcases hlogor with hlog | hlog
              · rw [hlog]
                simpa using hnd2
              · rw [hlog]
                refine List.nodup_cons.mpr ⟨?_, hnd2⟩
                intro hmm
                apply hnv2' rootReq hmm
                rw [hreqroot]
                exact self_mem_insertVis rootReq s.load.visited
            · by_cases henq : enqr = []
              · right
                show l2.state = LoadState.Done
                rw [hstate2', if_pos henq]
              · left
                show l2.state = LoadState.LoadingImports
                rw [hstate2', if_neg henq]
            · intro r hr
              show r ∈ l2.visited
              rw [hpend2'] at hr
              exact hin2 r hr
            · intro r hr
              show r ∈ l2.visited
              rw [hlog2'] at hr
              rcases List.mem_append.mp hr with hr1 | hr2
              · rcases hlogor with hlog | hlog
                · rw [hlog] at hr1
                  simp at hr1
                · rw [hlog] at hr1
                  rw [List.mem_singleton.mp hr1]
                  exact hrootvis
              · exact hin2 r hr2
          · rw [hst] at hsor
            rcases hsor with hsi | hsi <;> exact absurd hsi (by decide)
    | LoadingImports =>
      simp only [stepLoad, hst] at h
      by_cases hmem : req ∈ s.load.pending
      case neg =>
        rw [if_neg hmem] at h
        exact Option.noConfusion h
      case pos =>
        rw [if_pos hmem] at h
        cases hreg : registerAndRecurse eng s.map
            { s.load with state := LoadState.LoadingImports
                          pending := s.load.pending.erase req } req src with
        | err e0 =>
          simp only [hreg] at h
          exact Option.noConfusion h
        | panicked =>
          simp only [hreg] at h
          exact Option.noConfusion h
        | ok m2 l2 enqr =>
          simp only [hreg] at h
          have hs2 := Option.some_inj.mp h
          subst hs2
          obtain ⟨hsub, hpend2, hlog2, hnd2, hnv2, hin2, hstate2⟩ :=
            registerAndRecurse_ok_spec eng s.map
              { s.load with state := LoadState.LoadingImports
                            pending := s.load.pending.erase req } req src m2 l2 enqr hreg
          have hsub' : ∀ x ∈ insertVis req s.load.visited, x ∈ l2.visited := hsub
          have hpend2' : l2.pending = s.load.pending.erase req ++ enqr := hpend2
          have hlog2' : l2.loadLog = s.load.loadLog ++ enqr := hlog2
          have hnv2' : ∀ x ∈ enqr, x ∉ insertVis req s.load.visited := hnv2
          have hne : LoadState.LoadingImports ≠ LoadState.LoadingRoot := by decide
          have hstate2' : l2.state =
              (if s.load.pending.erase req ++ enqr = [] then LoadState.Done
               else if LoadState.LoadingImports = LoadState.LoadingRoot then
                 LoadState.LoadingImports
               else LoadState.LoadingImports) := hstate2
          rw [if_neg hne] at hstate2'
          rcases hcase with ⟨hsi, _⟩ | ⟨hsi, _⟩ | ⟨_, hpv, hlv⟩
          · rw [hst] at hsi
            exact absurd hsi (by decide)
          · rw [hst] at hsi
            exact absurd hsi (by decide)
          · have hins : insertVis req s.load.visited = s.load.visited := by
              simp [insertVis, hpv req hmem]
            rw [hins] at hsub' hnv2'
            refine ⟨?_, Or.inr (Or.inr ⟨?_, ?_, ?_⟩)⟩
            · show l2.loadLog.Nodup
              rw [hlog2']
              exact List.Nodup.append hnd hnd2
                (fun r hr1 hr2 => (hnv2' r hr2) (hlv r hr1))
            · by_cases hpe : s.load.pending.erase req ++ enqr = []
              · right
                show l2.state = LoadState.Done
                rw [hstate2', if_pos hpe]
              · left
                show l2.state = LoadState.LoadingImports
                rw [hstate2', if_neg hpe]
            · intro r hr
              show r ∈ l2.visited
              rw [hpend2'] at hr
              rcases List.mem_append.mp hr with hr1 | hr2
              · exact hsub' r (hpv r (List.mem_of_mem_erase hr1))
              · exact hin2 r hr2
            · intro r hr
              show r ∈ l2.visited
              rw [hlog2'] at hr
              rcases List.mem_append.mp hr with hr1 | hr2
              · exact hsub' r (hlv r hr1)
              · exact hin2 r hr2

theorem runLoad_inv (eng : Engine) (rootReq : ModuleRequest) :
    ∀ (events : List LoadEvent) (s s2 : LoadGraphState), LoadInv rootReq s →
      runLoad eng rootReq s events = some s2 → LoadInv rootReq s2 := by
  intro events
  induction events with
  | nil =>
    intro s s2 hinv h
    simp only [runLoad, Option.some_inj] at h
    exact h ▸ hinv
  | cons e rest ih =>
    intro s s2 hinv h
    simp only [runLoad] at h
    cases hstep : stepLoad eng rootReq s e with
    | none =>
      rw [hstep] at h
      exact Option.noConfusion h
    | some s1 =>
      rw [hstep] at h
      exact ih s1 s2 (stepLoad_inv eng rootReq s s1 e hinv hstep) h

theorem stepLoad_visited_mono (eng : Engine) (rootReq : ModuleRequest)
    (s s2 : LoadGraphState) (e : LoadEvent) (h : stepLoad eng rootReq s e = some s2) :
    ∀ r ∈ s.load.visited, r ∈ s2.load.visited := by
  intro r hr
  cases e with
  | pollInit =>
    cases hst : s.load.state with
    | Init =>
      simp only [stepLoad, hst] at h
      have hs2 := Option.some_inj.mp h
      subst hs2
      exact hr
    | LoadingRoot =>
      simp only [stepLoad, hst] at h
      exact Option.noConfusion h
    | LoadingImports =>
      simp only [stepLoad, hst] at h
      exact Option.noConfusion h
    | Done =>
      simp only [stepLoad, hst] at h
      exact Option.noConfusion h
  | complete req src =>
    cases hst : s.load.state with
    | Init =>
      simp only [stepLoad, hst] at h
      exact Option.noConfusion h
    | Done =>
      simp only [stepLoad, hst] at h
      exact Option.noConfusion h
    | LoadingRoot =>
      simp only [stepLoad, hst] at h
      by_cases hmem : req ∈ s.load.pending
      case neg =>
        rw [if_neg hmem] at h
        exact Option.noConfusion h
      case pos =>
        rw [if_pos hmem] at h
        cases hreg : registerAndRecurse eng s.map
            { s.load with state := LoadState.LoadingRoot
                          pending := s.load.pending.erase req } req src with
        | err e0 =>
          simp only [hreg] at h
          exact Option.noConfusion h
        | panicked =>
          simp only [hreg] at h
          exact Option.noConfusion h
        | ok m2 l2 enqr =>
          simp only [hreg] at h
          have hs2 := Option.some_inj.mp h
          subst hs2
          have hsub' : ∀ x ∈ insertVis req s.load.visited, x ∈ l2.visited :=
            (registerAndRecurse_ok_spec eng s.map
              { s.load with state := LoadState.LoadingRoot
                            pending := s.load.pending.erase req } req src m2 l2 enqr
              hreg).1
          exact hsub' r (mem_insertVis_of_mem req r s.load.visited hr)
    | LoadingImports =>
      simp only [stepLoad, hst] at h
      by_cases hmem : req ∈ s.load.pending
      case neg =>
        rw [if_neg hmem] at h
        exact Option.noConfusion h
      case pos =>
        rw [if_pos hmem] at h
        cases hreg : registerAndRecurse eng s.map
            { s.load with state := LoadState.LoadingImports
                          pending := s.load.pending.erase req } req src with
        | err e0 =>
          simp only [hreg] at h
          exact Option.noConfusion h
        | panicked =>
          simp only [hreg] at h
          exact Option.noConfusion h
        | ok m2 l2 enqr =>
          simp only [hreg] at h
          have hs2 := Option.some_inj.mp h
          subst hs2
          have hsub' : ∀ x ∈ insertVis req s.load.visited, x ∈ l2.visited :=
            (registerAndRecurse_ok_spec eng s.map
              { s.load with state := LoadState.LoadingImports
                            pending := s.load.pending.erase req } req src m2 l2 enqr
              hreg).1
          exact hsub' r (mem_insertVis_of_mem req r s.load.visited hr)

theorem registerAndRecurse_pushes_visited (eng : Engine) (m : ModuleMap) (l : LoadRec)
    (req : ModuleRequest) (src : ModuleSource) (m2 : ModuleMap) (l2 : LoadRec)
    (enq : List ModuleRequest)
    (h : registerAndRecurse eng m l req src = RegResult.ok m2 l2 enq) :
    l2.pending = l.pending ++ enq ∧ enq.Nodup ∧
    ∀ r ∈ enq, r ∈ l2.visited ∧ r ∉ l.visited := by
  obtain ⟨hsub, hpend, hlog, hnd, hnv, hin, hstate⟩ :=
    registerAndRecurse_ok_spec eng m l req src m2 l2 enq h
  exact ⟨hpend, hnd, fun r hr =>
    ⟨hin r hr, fun hmem => hnv r hr (mem_insertVis_of_mem req r l.visited hmem)⟩⟩

/-- **C1.** The loader's `load` is invoked at most once per distinct module
request: along any event-driven run of a `RecursiveModuleLoad` the ghost log
of issued fetches never repeats a request (part 1).  The spec's stated
mechanism is amended: a request newly enqueued as a fetch future by
`register_and_recurse` is indeed inserted into `visited` during that same
call and was not visited before (part 3), and `visited` only ever grows
(part 2) — but the root request pushed by the very first poll is *not*
marked visited at that point (see `root_push_without_visit`); its fetch is
nevertheless unique because the `LoadingRoot` state admits no other pending
request. -/
theorem load_fetches_at_most_once :
    (∀ (eng : Engine) (rootReq : ModuleRequest) (m : ModuleMap)
        (isMainInit isDyn : Bool) (events : List LoadEvent) (s2 : LoadGraphState),
      runLoad eng rootReq { map := m, load := initLoad m rootReq isMainInit isDyn }
          events = some s2 →
      s2.load.loadLog.Nodup) ∧
    (∀ (eng : Engine) (rootReq : ModuleRequest) (s s2 : LoadGraphState)
        (e : LoadEvent),
      stepLoad eng rootReq s e = some s2 →
      ∀ r ∈ s.load.visited, r ∈ s2.load.visited) ∧
    (∀ (eng : Engine) (m : ModuleMap) (l : LoadRec) (req : ModuleRequest)
        (src : ModuleSource) (m2 : ModuleMap) (l2 : LoadRec)
        (enq : List ModuleRequest),
      registerAndRecurse eng m l req src = RegResult.ok m2 l2 enq →
      l2.pending = l.pending ++ enq ∧ enq.Nodup ∧
      ∀ r ∈ enq, r ∈ l2.visited ∧ r ∉ l.visited) := by
  refine ⟨?_, ?_, ?_⟩
  · intro eng rootReq m isMainInit isDyn events s2 h
    exact (runLoad_inv eng rootReq events
      { map := m, load := initLoad m rootReq isMainInit isDyn } s2
      (initLoad_inv m rootReq isMainInit isDyn) h).1
  · intro eng rootReq s s2 e h
    exact stepLoad_visited_mono eng rootReq s s2 e h
  · intro eng m l req src m2 l2 enq h
    exact registerAndRecurse_pushes_visited eng m l req src m2 l2 enq h

/-- Counterexample to the spec's universally-stated mechanism for C1: the
very first poll of a fresh load pushes the root request into `pending` (and
invokes `loader.load` for it, as the ghost log records) while `visited`
stays empty — so "a fetched request is marked visited when its fetch is
pushed" fails for the root push in `poll_next`'s `Init` arm. -/
theorem root_push_without_visit :
    stepLoad trivialEngine rootReqC1
        { map := ModuleMap.new, load := initLoad ModuleMap.new rootReqC1 true false }
        LoadEvent.pollInit = some afterInitC1 ∧
    rootReqC1 ∈ afterInitC1.load.pending ∧
    rootReqC1 ∈ afterInitC1.load.loadLog ∧
    rootReqC1 ∉ afterInitC1.load.visited := by
  refine ⟨by decide, by decide, by decide, by decide⟩

/-- Witness for C1: a concrete two-event run (initial poll, then completion
of the root fetch) reaches `finalC1`, and the theorem applied to that run
yields a duplicate-free fetch log. -/
theorem load_fetches_at_most_once_witness :
    runLoad trivialEngine rootReqC1
        { map := ModuleMap.new, load := initLoad ModuleMap.new rootReqC1 true false }
        [LoadEvent.pollInit, LoadEvent.complete rootReqC1 srcRootC1] = some finalC1 ∧
    finalC1.load.loadLog.Nodup := by
  refine ⟨by decide, ?_⟩
  exact load_fetches_at_most_once.1 trivialEngine rootReqC1 ModuleMap.new true false
    [LoadEvent.pollInit, LoadEvent.complete rootReqC1 srcRootC1] finalC1 (by decide)
